import Mathlib

/-!
# Bruinbase B+ tree node layer (`BTreeNode.cc`)

A shallow embedding of `BTLeafNode` and `BTNonLeafNode` over an explicit page buffer of bytes,
with the page store `PageFile` modelled as a map from page ids to pages.

Conventions of the embedding:

* A node object is its page buffer `char buffer[PageFile::PAGE_SIZE]`, a list of bytes.
* The constants of the headers that are not part of the source tree
  (`PageFile::PAGE_SIZE`, `sizeof(PageId)`, `sizeof(RecordId)`, `PAIR_SIZE`, `NUM_PAIRS`)
  are the fields of a `Layout`.
* `int` is 32 bits wide, little endian, two's complement; `size_t` is 64 bits wide.
* The source spells two type names `PageID` and `RecordIf` and, inside `locate`, names the
  search key `key`; they are read as `PageId`, `RecordId` and `searchKey`.
* A `RecordId` is an opaque string of `sizeof(RecordId)` bytes.
* `memcpy` and `memset` never touch bytes outside the destination array, and a read past
  the end of an array yields zero bytes (C leaves both undefined).
-/

namespace BTreeNode

/-- One `char` of a page. -/
abbrev Byte := Fin 256

/-- The constants of the absent headers, taken as parameters. -/
structure Layout where
  /-- The value of `PageFile::PAGE_SIZE`. -/
  PAGE_SIZE : Nat
  /-- The value of `sizeof(PageId)`. -/
  SIZEOF_PAGEID : Nat
  /-- The value of `sizeof(RecordId)`. -/
  SIZEOF_RECORDID : Nat
  /-- The value of `PAIR_SIZE`. -/
  PAIR_SIZE : Nat
  /-- The value of `NUM_PAIRS`. -/
  NUM_PAIRS : Nat

/-- The value of `sizeof(int)`. -/
def SIZEOF_INT : Nat := 4

/-- Return codes (`RC`); `ok` is the value `0`. -/
inductive RC where
  | ok
  | RC_INVALID_PID
  | RC_INVALID_FILE_FORMAT
  | RC_NODE_FULL
  | RC_NO_SUCH_RECORD
  | RC_INVALID_ATTRIBUTE
  deriving DecidableEq

/-- A leaf node: the page buffer it mirrors. -/
structure BTLeafNode where
  buffer : List Byte
  deriving DecidableEq

/-- Subtraction of `size_t` values, which wraps around modulo `2 ^ 64`. -/
def usub (a b : Nat) : Nat := (a + 2 ^ 64 - b % 2 ^ 64) % 2 ^ 64

/-- The byte at offset `i`; zero past the end. -/
def byteAt (b : List Byte) (i : Nat) : Byte := b.getD i 0

/-- The effect of `memcpy(dst + d, src, n)` on the array `dst`. -/
def memcpy (dst : List Byte) (d : Nat) (src : List Byte) (n : Nat) : List Byte :=
  (List.range dst.length).map fun i => if d ≤ i ∧ i - d < n then byteAt src (i - d) else byteAt dst i

/-- The effect of `memset(dst + d, v, n)` on the array `dst`. -/
def memset (dst : List Byte) (d : Nat) (v : Byte) (n : Nat) : List Byte :=
  (List.range dst.length).map fun i => if d ≤ i ∧ i - d < n then v else byteAt dst i

/-- The first `n` bytes at `src`. -/
def readBytes (src : List Byte) (n : Nat) : List Byte :=
  (List.range n).map (byteAt src)

/-- Little-endian value of a byte string. -/
def leNat : List Byte → Nat
  | [] => 0
  | b :: bs => b.val + 256 * leNat bs

/-- Two's complement reading of an unsigned value of `w` bytes. -/
def toSigned (w : Nat) (n : Nat) : Int :=
  if 2 * n < 2 ^ (8 * w) then (n : Int) else (n : Int) - 2 ^ (8 * w)

/-- The object representation of the signed integer `v` in `w` bytes. -/
def intBytes (w : Nat) (v : Int) : List Byte :=
  (List.range w).map fun j =>
    ⟨(v % 2 ^ (8 * w)).toNat / 256 ^ j % 256, Nat.mod_lt _ (by decide)⟩

/-- The `int` obtained by `memcpy(&x, src, sizeof(int))`. -/
def readInt (src : List Byte) : Int :=
  toSigned SIZEOF_INT (leNat (readBytes src SIZEOF_INT))

/-- The `PageId` obtained by `memcpy(&pid, src, sizeof(PageId))`. -/
def readPageId (L : Layout) (src : List Byte) : Int :=
  toSigned L.SIZEOF_PAGEID (leNat (readBytes src L.SIZEOF_PAGEID))

/-- The loop of `BTLeafNode::getKeyCount`, with loop variables `i` and `count`. -/
def getKeyCountLoop (L : Layout) (buffer : List Byte) : Nat → Nat → Nat → Nat
  | 0, _, count => count
  | fuel + 1, i, count =>
    if i < usub L.PAGE_SIZE L.SIZEOF_PAGEID then
      if readInt (buffer.drop i) = 0 then count
      else getKeyCountLoop L buffer fuel (i + L.PAIR_SIZE) (count + 1)
    else count

/-- The embedding of `BTLeafNode::getKeyCount`. The loop takes at most `PAGE_SIZE` steps
when `PAIR_SIZE` is positive. -/
def BTLeafNode.getKeyCount (L : Layout) (node : BTLeafNode) : Nat :=
  getKeyCountLoop L node.buffer L.PAGE_SIZE 0 0

/-- The embedding of `BTLeafNode::getNextNodePtr`. -/
def BTLeafNode.getNextNodePtr (L : Layout) (node : BTLeafNode) : Int :=
  readPageId L (node.buffer.drop (L.PAGE_SIZE - L.SIZEOF_PAGEID))

/-- The embedding of `BTLeafNode::setNextNodePtr`. -/
def BTLeafNode.setNextNodePtr (L : Layout) (node : BTLeafNode) (pid : Int) : RC × BTLeafNode :=
  if pid < 0 then (RC.RC_INVALID_PID, node)
  else
    (RC.ok, ⟨memcpy node.buffer (L.PAGE_SIZE - L.SIZEOF_PAGEID)
      (intBytes L.SIZEOF_PAGEID pid) L.SIZEOF_PAGEID⟩)

/-- The scan of `BTLeafNode::insert`: the offset `i` at which the loop is left. -/
def insertScan (L : Layout) (buffer : List Byte) (key : Int) : Nat → Nat → Nat
  | 0, i => i
  | fuel + 1, i =>
    if i < usub L.PAGE_SIZE L.SIZEOF_PAGEID then
      if readInt (buffer.drop i) = 0 ∨ readInt (buffer.drop i) ≥ key then i
      else insertScan L buffer key fuel (i + L.PAIR_SIZE)
    else i

/-- The embedding of `BTLeafNode::insert`: the return code and the node afterwards. -/
def BTLeafNode.insert (L : Layout) (node : BTLeafNode) (key : Int) (rid : List Byte) :
    RC × BTLeafNode :=
  if node.getKeyCount L ≤ L.NUM_PAIRS + 1 then (RC.RC_NODE_FULL, node)
  else
    let i := insertScan L node.buffer key L.PAGE_SIZE 0
    -- part a
    let updated_buf : List Byte := List.replicate L.PAGE_SIZE 0
    -- part b
    let updated_buf := memcpy updated_buf 0 node.buffer i
    -- part c
    let updated_buf := memcpy updated_buf i (intBytes SIZEOF_INT key) SIZEOF_INT
    let updated_buf := memcpy updated_buf (i + SIZEOF_INT) rid L.SIZEOF_RECORDID
    -- part d
    let updated_buf := memcpy updated_buf (i + L.PAIR_SIZE) (node.buffer.drop i)
      (usub (node.getKeyCount L * L.PAIR_SIZE) i)
    -- part e
    let next := node.getNextNodePtr L
    let updated_buf := memcpy updated_buf (L.PAGE_SIZE - L.SIZEOF_PAGEID)
      (intBytes L.SIZEOF_PAGEID next) L.SIZEOF_PAGEID
    -- part f
    (RC.ok, ⟨memcpy node.buffer 0 updated_buf L.PAGE_SIZE⟩)

/-- The result of `BTLeafNode::insertAndSplit`: return code, receiver and sibling afterwards,
and the output parameter `siblingKey`. -/
structure SplitResult where
  rc : RC
  node : BTLeafNode
  sibling : BTLeafNode
  siblingKey : Int
  deriving DecidableEq

/-- The embedding of `BTLeafNode::insertAndSplit`. The receiver and the sibling are distinct
objects; `siblingKey` is the value the output parameter holds before the call. -/
def BTLeafNode.insertAndSplit (L : Layout) (node : BTLeafNode) (key : Int) (rid : List Byte)
    (sibling : BTLeafNode) (siblingKey : Int) : SplitResult :=
  -- make sure sibling is empty
  if sibling.getKeyCount L ≠ 0 then ⟨RC.RC_INVALID_ATTRIBUTE, node, sibling, siblingKey⟩
  else
    let sibling : BTLeafNode := ⟨memset sibling.buffer 0 0 L.PAGE_SIZE⟩
    -- make sure splitting is necessary
    if node.getKeyCount L < L.NUM_PAIRS then
      ⟨RC.RC_INVALID_FILE_FORMAT, node, sibling, siblingKey⟩
    else
      let FIRST_HALF_INDEX := ((node.getKeyCount L + 1) / 2) * L.PAIR_SIZE
      let SECOND_HALF_SIZE := (node.getKeyCount L / 2) * L.PAIR_SIZE
      -- split up into 2 buffers
      let sibling : BTLeafNode := ⟨memcpy sibling.buffer 0 (node.buffer.drop FIRST_HALF_INDEX)
        (usub (usub L.PAGE_SIZE L.SIZEOF_PAGEID) FIRST_HALF_INDEX)⟩
      let sibling := (sibling.setNextNodePtr L (node.getNextNodePtr L)).2
      let node : BTLeafNode :=
        ⟨memset node.buffer FIRST_HALF_INDEX 0 (usub SECOND_HALF_SIZE L.SIZEOF_PAGEID)⟩
      -- get the first key from sibling
      let second_buf_start_key := readInt sibling.buffer
      if key < second_buf_start_key then
        -- case 1: key needs to be added to buffer
        let node := (node.insert L key rid).2
        ⟨RC.ok, node, sibling, readInt sibling.buffer⟩
      else
        -- case 2: key needs to be added to sibling
        let sibling := (sibling.insert L key rid).2
        ⟨RC.ok, node, sibling, readInt sibling.buffer⟩

/-- The loop of `BTLeafNode::locate`: `some i` when the loop returns at offset `i` with the
key found, `none` when the loop is left by `break` or by its condition. -/
def locateLoop (L : Layout) (buffer : List Byte) (searchKey : Int) : Nat → Nat → Option Nat
  | 0, _ => none
  | fuel + 1, i =>
    if i < usub L.PAGE_SIZE L.SIZEOF_PAGEID then
      if readInt (buffer.drop i) = searchKey then some i
      else if readInt (buffer.drop i) > searchKey then none
      else locateLoop L buffer searchKey fuel (i + L.PAIR_SIZE)
    else none

/-- The embedding of `BTLeafNode::locate`: the return code and the output parameter `eid`. -/
def BTLeafNode.locate (L : Layout) (node : BTLeafNode) (searchKey : Int) : RC × Int :=
  match locateLoop L node.buffer searchKey L.PAGE_SIZE 0 with
  | some i => (RC.ok, ((i / L.PAIR_SIZE : Nat) : Int))
  | none => (RC.RC_NO_SUCH_RECORD, (node.getKeyCount L : Int))

/-- The embedding of `BTLeafNode::readEntry`: the return code and the output parameters
`key` and `rid`, which keep the values passed in when the call fails. -/
def BTLeafNode.readEntry (L : Layout) (node : BTLeafNode) (eid : Int) (key : Int)
    (rid : List Byte) : RC × Int × List Byte :=
  if eid > (node.getKeyCount L : Int) ∨ eid < 0 then (RC.RC_NO_SUCH_RECORD, key, rid)
  else
    (RC.ok, readInt (node.buffer.drop (eid.toNat * L.PAIR_SIZE)),
      readBytes (node.buffer.drop (eid.toNat * L.PAIR_SIZE + SIZEOF_INT)) L.SIZEOF_RECORDID)

/-! ## Reading a page as a sequence of entries -/

/-- The key stored in slot `k`. -/
def BTLeafNode.keyAt (L : Layout) (node : BTLeafNode) (k : Nat) : Int :=
  readInt (node.buffer.drop (k * L.PAIR_SIZE))

/-- The record pointer stored in slot `k`. -/
def BTLeafNode.ridAt (L : Layout) (node : BTLeafNode) (k : Nat) : List Byte :=
  readBytes (node.buffer.drop (k * L.PAIR_SIZE + SIZEOF_INT)) L.SIZEOF_RECORDID

/-- The entry sequence of a node: slots `0 .. getKeyCount() - 1`. -/
def BTLeafNode.entries (L : Layout) (node : BTLeafNode) : List (Int × List Byte) :=
  (List.range (node.getKeyCount L)).map fun k => (node.keyAt L k, node.ridAt L k)

/-- The keys of the entry sequence. -/
def BTLeafNode.keys (L : Layout) (node : BTLeafNode) : List Int :=
  (List.range (node.getKeyCount L)).map (node.keyAt L)

/-- A page image: the entries `es` packed from offset 0, zero bytes up to the trailer, and
the next-node pointer `next` in the trailer. -/
def mkPage (L : Layout) (es : List (Int × List Byte)) (next : Int) : BTLeafNode :=
  ⟨readBytes
    ((es.map fun e => intBytes SIZEOF_INT e.1 ++ readBytes e.2 L.SIZEOF_RECORDID).flatten)
      (L.PAGE_SIZE - L.SIZEOF_PAGEID)
    ++ intBytes L.SIZEOF_PAGEID next⟩

/-- The layout of the capacity-4 example: 4 slots of 12 bytes and a 4-byte trailer. -/
def small : Layout :=
  { PAGE_SIZE := 52, SIZEOF_PAGEID := 4, SIZEOF_RECORDID := 8, PAIR_SIZE := 12, NUM_PAIRS := 4 }

/-- The conditions on the constants under which the general results are stated: a pair is an
`int` followed by a `RecordId`, a `PageId` is no wider than a `RecordId`, the page is
`NUM_PAIRS` pairs followed by the trailer, and there are at least two pairs. -/
def Layout.WellFormed (L : Layout) : Prop :=
  L.PAIR_SIZE = SIZEOF_INT + L.SIZEOF_RECORDID ∧ L.SIZEOF_PAGEID ≤ L.SIZEOF_RECORDID ∧
  L.PAGE_SIZE = L.NUM_PAIRS * L.PAIR_SIZE + L.SIZEOF_PAGEID ∧ 2 ≤ L.NUM_PAIRS ∧
  L.PAGE_SIZE < 2 ^ 31

instance (L : Layout) : Decidable L.WellFormed := by
  unfold Layout.WellFormed; infer_instance

/-- A record pointer used in the examples. -/
def rid0 : List Byte := [1, 0, 0, 0, 7, 0, 0, 0]

/-- A zeroed page of the capacity-4 layout. -/
def emptyPage : BTLeafNode := mkPage small [] 0

/-- The page holding the keys 2, 5, 9 (capacity 4). -/
def page3 : BTLeafNode := mkPage small [(2, rid0), (5, rid0), (9, rid0)] 0

/-- The full page holding the keys 10, 20, 30, 40 (capacity 4). -/
def page4 : BTLeafNode := mkPage small [(10, rid0), (20, rid0), (30, rid0), (40, rid0)] 0

/-- The page holding the keys -5, -2 (capacity 4). -/
def pageNeg : BTLeafNode := mkPage small [(-5, rid0), (-2, rid0)] 0

/-- The page on which the entries with keys 0 and 5 are laid out (capacity 4). -/
def pageZeroKey : BTLeafNode := mkPage small [(0, rid0), (5, rid0)] 0

/-- The number `n` is the index of the first slot of the entry region that holds the key
zero, or the number of slots when there is none. -/
def IsCount (L : Layout) (buffer : List Byte) (n : Nat) : Prop :=
  (∀ k, k < n → k * L.PAIR_SIZE < usub L.PAGE_SIZE L.SIZEOF_PAGEID ∧
      readInt (buffer.drop (k * L.PAIR_SIZE)) ≠ 0) ∧
  (n * L.PAIR_SIZE < usub L.PAGE_SIZE L.SIZEOF_PAGEID →
      readInt (buffer.drop (n * L.PAIR_SIZE)) = 0)

/-- The setting of a split: well-formed constants, two page-sized buffers, an empty sibling
and a receiver at the split threshold. -/
def SplitReady (L : Layout) (node sibling : BTLeafNode) : Prop :=
  L.WellFormed ∧ node.buffer.length = L.PAGE_SIZE ∧ sibling.buffer.length = L.PAGE_SIZE ∧
  sibling.getKeyCount L = 0 ∧ L.NUM_PAIRS ≤ node.getKeyCount L

/-! ## The page store -/

/-- Modelled from the spec: the page store `PageFile`, whose code is not part of the source
tree. It is a map from page ids to the page-sized buffers written there; a page holds nothing
until it is written. -/
structure PageFile where
  pages : Int → Option (List Byte)

/-- Modelled from the spec: `PageFile::read(pid, buffer)` copies the `PAGE_SIZE` bytes stored
under `pid` into `buffer` and returns 0, or returns an error code when there is no such page. -/
def PageFile.read (L : Layout) (pf : PageFile) (pid : Int) (buffer : List Byte) :
    RC × List Byte :=
  match pf.pages pid with
  | some page => (RC.ok, memcpy buffer 0 page L.PAGE_SIZE)
  | none => (RC.RC_INVALID_PID, buffer)

/-- Modelled from the spec: `PageFile::write(pid, buffer)` stores the `PAGE_SIZE` bytes of
`buffer` under `pid` and returns 0, or returns an error code for a negative page id. -/
def PageFile.write (L : Layout) (pf : PageFile) (pid : Int) (buffer : List Byte) :
    RC × PageFile :=
  if pid < 0 then (RC.RC_INVALID_PID, pf)
  else (RC.ok, ⟨fun q => if q = pid then some (readBytes buffer L.PAGE_SIZE) else pf.pages q⟩)

/-- The embedding of `BTLeafNode::read`: the return code and the node afterwards. -/
def BTLeafNode.read (L : Layout) (node : BTLeafNode) (pid : Int) (pf : PageFile) :
    RC × BTLeafNode :=
  ((pf.read L pid node.buffer).1, ⟨(pf.read L pid node.buffer).2⟩)

/-- The embedding of `BTLeafNode::write`: the return code and the page store afterwards. -/
def BTLeafNode.write (L : Layout) (node : BTLeafNode) (pid : Int) (pf : PageFile) :
    RC × PageFile :=
  pf.write L pid node.buffer

/-- A page store in which no page has been written. -/
def emptyStore : PageFile := ⟨fun _ => none⟩

/-! ## The internal node -/

/-- An internal node: the page buffer it mirrors. -/
structure BTNonLeafNode where
  buffer : List Byte
  deriving DecidableEq

/-- The embedding of `BTNonLeafNode::read`, whose body is `return 0;`. -/
def BTNonLeafNode.read (node : BTNonLeafNode) (_pid : Int) (_pf : PageFile) :
    RC × BTNonLeafNode :=
  (RC.ok, node)

/-- The embedding of `BTNonLeafNode::write`, whose body is `return 0;`. -/
def BTNonLeafNode.write (_node : BTNonLeafNode) (_pid : Int) (pf : PageFile) : RC × PageFile :=
  (RC.ok, pf)

/-- The embedding of `BTNonLeafNode::getKeyCount`, whose body is `return 0;`. -/
def BTNonLeafNode.getKeyCount (_node : BTNonLeafNode) : Int := 0

/-- The embedding of `BTNonLeafNode::insert`, whose body is `return 0;`. -/
def BTNonLeafNode.insert (node : BTNonLeafNode) (_key : Int) (_pid : Int) :
    RC × BTNonLeafNode :=
  (RC.ok, node)

/-- The result of `BTNonLeafNode::insertAndSplit`: return code, receiver and sibling
afterwards, and the output parameter `midKey`. -/
structure NonLeafSplitResult where
  rc : RC
  node : BTNonLeafNode
  sibling : BTNonLeafNode
  midKey : Int
  deriving DecidableEq

/-- The embedding of `BTNonLeafNode::insertAndSplit`, whose body is `return 0;`; `midKey` is
the value the output parameter holds before the call. -/
def BTNonLeafNode.insertAndSplit (node : BTNonLeafNode) (_key : Int) (_pid : Int)
    (sibling : BTNonLeafNode) (midKey : Int) : NonLeafSplitResult :=
  ⟨RC.ok, node, sibling, midKey⟩

/-- The embedding of `BTNonLeafNode::locateChildPtr`, whose body is `return 0;`: the return
code and the output parameter `pid`, which keeps the value passed in. -/
def BTNonLeafNode.locateChildPtr (_node : BTNonLeafNode) (_searchKey : Int) (pid : Int) :
    RC × Int :=
  (RC.ok, pid)

/-- The embedding of `BTNonLeafNode::initializeRoot`, whose body is `return 0;`. -/
def BTNonLeafNode.initializeRoot (node : BTNonLeafNode) (_pid1 : Int) (_key : Int)
    (_pid2 : Int) : RC × BTNonLeafNode :=
  (RC.ok, node)

/-- A zeroed internal node of the capacity-4 layout. -/
def emptyNonLeaf : BTNonLeafNode := ⟨List.replicate small.PAGE_SIZE 0⟩

/-- The full page holding the keys 10, 20, 30, 40 whose trailer holds the page id 9. -/
def page4Next : BTLeafNode := mkPage small [(10, rid0), (20, rid0), (30, rid0), (40, rid0)] 9

/-- The full page holding the keys 10, 20, 30, 40 whose trailer holds the page id -1. -/
def page4NegNext : BTLeafNode :=
  mkPage small [(10, rid0), (20, rid0), (30, rid0), (40, rid0)] (-1)

/-- The conditions on the constants under which the body of `insert` is analysed: a pair is
an `int` followed by a `RecordId` and the page is `S` pairs followed by the trailer. The
constant `NUM_PAIRS` is left free. -/
def SlotLayout (L : Layout) (S : Nat) : Prop :=
  L.PAIR_SIZE = SIZEOF_INT + L.SIZEOF_RECORDID ∧
  L.PAGE_SIZE = S * L.PAIR_SIZE + L.SIZEOF_PAGEID ∧ L.PAGE_SIZE < 2 ^ 31

instance (L : Layout) (S : Nat) : Decidable (SlotLayout L S) := by
  unfold SlotLayout; infer_instance

/-- A layout with 4 slots of 12 bytes and a 4-byte trailer whose `NUM_PAIRS` is 1: the guard
of `insert` lets a node with 3 or 4 entries through. -/
def lowThreshold : Layout :=
  { PAGE_SIZE := 52, SIZEOF_PAGEID := 4, SIZEOF_RECORDID := 8, PAIR_SIZE := 12, NUM_PAIRS := 1 }

/-! ## Memory primitives -/

theorem usub_eq {a b : Nat} (h : b ≤ a) (ha : a < 2 ^ 64) : usub a b = a - b := by
  unfold usub
  norm_num at ha ⊢
  omega

@[simp] theorem length_memcpy (dst : List Byte) (d : Nat) (src : List Byte) (n : Nat) :
    (memcpy dst d src n).length = dst.length := by
  simp [memcpy]

@[simp] theorem length_memset (dst : List Byte) (d : Nat) (v : Byte) (n : Nat) :
    (memset dst d v n).length = dst.length := by
  simp [memset]

theorem byteAt_of_le {b : List Byte} {i : Nat} (h : b.length ≤ i) : byteAt b i = 0 := by
  simp [byteAt, List.getD_eq_getElem?_getD, List.getElem?_eq_none h]

theorem byteAt_memcpy (dst : List Byte) (d : Nat) (src : List Byte) (n i : Nat) :
    byteAt (memcpy dst d src n) i =
      if i < dst.length ∧ d ≤ i ∧ i - d < n then byteAt src (i - d) else byteAt dst i := by
  by_cases hi : i < dst.length
  · simp [byteAt, memcpy, List.getD_eq_getElem?_getD, List.getElem?_map, List.getElem?_range, hi]
  · have h1 : byteAt dst i = 0 := byteAt_of_le (by omega)
    have h2 : byteAt (memcpy dst d src n) i = 0 := byteAt_of_le (by simp; omega)
    simp [h1, h2, hi]

theorem byteAt_memset (dst : List Byte) (d : Nat) (v : Byte) (n i : Nat) :
    byteAt (memset dst d v n) i =
      if i < dst.length ∧ d ≤ i ∧ i - d < n then v else byteAt dst i := by
  by_cases hi : i < dst.length
  · simp [byteAt, memset, List.getD_eq_getElem?_getD, List.getElem?_map, List.getElem?_range, hi]
  · have h1 : byteAt dst i = 0 := byteAt_of_le (by omega)
    have h2 : byteAt (memset dst d v n) i = 0 := byteAt_of_le (by simp; omega)
    simp [h1, h2, hi]

theorem byteAt_drop (b : List Byte) (i j : Nat) : byteAt (b.drop i) j = byteAt b (i + j) := by
  simp [byteAt, List.getD_eq_getElem?_getD, List.getElem?_drop]

theorem readBytes_congr {a b : List Byte} {n : Nat} (h : ∀ j, j < n → byteAt a j = byteAt b j) :
    readBytes a n = readBytes b n := by
  unfold readBytes
  apply List.map_congr_left
  intro j hj
  exact h j (List.mem_range.mp hj)

theorem readInt_congr {a b : List Byte} (h : ∀ j, j < SIZEOF_INT → byteAt a j = byteAt b j) :
    readInt a = readInt b := by
  unfold readInt
  rw [readBytes_congr h]

theorem readInt_zero {a : List Byte} (h : ∀ j, j < SIZEOF_INT → byteAt a j = 0) :
    readInt a = 0 := by
  have h0 := h 0 (by decide)
  have h1 := h 1 (by decide)
  have h2 := h 2 (by decide)
  have h3 := h 3 (by decide)
  simp [readInt, readBytes, SIZEOF_INT, List.range, List.range.loop, leNat, toSigned, h0, h1, h2, h3]

/-! ## The key count -/

theorem getKeyCountLoop_spec (L : Layout) (buffer : List Byte) (hp : 0 < L.PAIR_SIZE) :
    ∀ fuel i count, usub L.PAGE_SIZE L.SIZEOF_PAGEID ≤ i + fuel →
      count ≤ getKeyCountLoop L buffer fuel i count ∧
      (∀ j, j < getKeyCountLoop L buffer fuel i count - count →
        i + j * L.PAIR_SIZE < usub L.PAGE_SIZE L.SIZEOF_PAGEID ∧
        readInt (buffer.drop (i + j * L.PAIR_SIZE)) ≠ 0) ∧
      (i + (getKeyCountLoop L buffer fuel i count - count) * L.PAIR_SIZE
          < usub L.PAGE_SIZE L.SIZEOF_PAGEID →
        readInt (buffer.drop (i + (getKeyCountLoop L buffer fuel i count - count) * L.PAIR_SIZE))
          = 0) := by
  intro fuel
  induction fuel with
  | zero =>
    intro i count h
    simp only [getKeyCountLoop, le_refl, Nat.sub_self, Nat.zero_mul, Nat.add_zero, true_and]
    exact ⟨fun j hj => absurd hj (Nat.not_lt_zero j), fun h2 => by omega⟩
  | succ fuel ih =>
    intro i count h
    unfold getKeyCountLoop
    by_cases h1 : i < usub L.PAGE_SIZE L.SIZEOF_PAGEID
    · by_cases h2 : readInt (buffer.drop i) = 0
      · simp only [h1, h2, if_true, le_refl, Nat.sub_self, Nat.zero_mul, Nat.add_zero, true_and]
        exact ⟨fun j hj => absurd hj (Nat.not_lt_zero j), fun _ => trivial⟩
      · simp only [h1, h2, if_true, if_false]
        obtain ⟨a, b, c⟩ := ih (i + L.PAIR_SIZE) (count + 1) (by omega)
        generalize getKeyCountLoop L buffer fuel (i + L.PAIR_SIZE) (count + 1) = r at a b c
        have e : r - count = (r - (count + 1)) + 1 := by omega
        refine ⟨by omega, ?_, ?_⟩
        · intro j hj
          rcases Nat.eq_zero_or_pos j with hj0 | hj0
          · subst hj0
            simpa using ⟨h1, h2⟩
          · have := b (j - 1) (by omega)
            have e2 : i + L.PAIR_SIZE + (j - 1) * L.PAIR_SIZE = i + j * L.PAIR_SIZE := by
              have : j = (j - 1) + 1 := by omega
              rw [this, Nat.add_mul]; simp; omega
            rwa [e2] at this
        · have e2 : i + (r - count) * L.PAIR_SIZE
              = i + L.PAIR_SIZE + (r - (count + 1)) * L.PAIR_SIZE := by
            rw [e, Nat.add_mul]; omega
          rw [e2]
          exact c
    · simp only [h1, if_false, le_refl, Nat.sub_self, Nat.zero_mul, Nat.add_zero, true_and]
      exact ⟨fun j hj => absurd hj (Nat.not_lt_zero j), fun h2 => h2.elim⟩

theorem isCount_getKeyCount (L : Layout) (node : BTLeafNode) (hp : 0 < L.PAIR_SIZE)
    (hs : usub L.PAGE_SIZE L.SIZEOF_PAGEID ≤ L.PAGE_SIZE) :
    IsCount L node.buffer (node.getKeyCount L) := by
  obtain ⟨_, b, c⟩ := getKeyCountLoop_spec L node.buffer hp L.PAGE_SIZE 0 0 (by omega)
  unfold BTLeafNode.getKeyCount
  simp only [Nat.sub_zero, Nat.zero_add] at b c
  exact ⟨b, c⟩

theorem isCount_unique {L : Layout} {buffer : List Byte} {m n : Nat}
    (hm : IsCount L buffer m) (hn : IsCount L buffer n) : m = n := by
  rcases Nat.lt_trichotomy m n with h | h | h
  · exact absurd (hm.2 (hn.1 m h).1) (hn.1 m h).2
  · exact h
  · exact absurd (hn.2 (hm.1 n h).1) (hm.1 n h).2

theorem getKeyCount_eq_of_isCount {L : Layout} {node : BTLeafNode} {n : Nat}
    (hp : 0 < L.PAIR_SIZE) (hs : usub L.PAGE_SIZE L.SIZEOF_PAGEID ≤ L.PAGE_SIZE)
    (hn : IsCount L node.buffer n) : node.getKeyCount L = n :=
  isCount_unique (isCount_getKeyCount L node hp hs) hn

theorem Layout.WellFormed.region {L : Layout} (h : L.WellFormed) :
    usub L.PAGE_SIZE L.SIZEOF_PAGEID = L.NUM_PAIRS * L.PAIR_SIZE := by
  obtain ⟨_, _, h3, _, h5⟩ := h
  rw [usub_eq (by omega) (by norm_num at h5 ⊢; omega)]
  omega

theorem Layout.WellFormed.pair_pos {L : Layout} (h : L.WellFormed) : 0 < L.PAIR_SIZE := by
  obtain ⟨h1, _⟩ := h
  simp [SIZEOF_INT] at h1
  omega

theorem isCount_getKeyCount_wf {L : Layout} (h : L.WellFormed) (node : BTLeafNode) :
    IsCount L node.buffer (node.getKeyCount L) :=
  isCount_getKeyCount L node h.pair_pos (by rw [h.region]; have := h.2.2.1; omega)

theorem getKeyCount_eq_wf {L : Layout} (h : L.WellFormed) {node : BTLeafNode} {n : Nat}
    (hn : IsCount L node.buffer n) : node.getKeyCount L = n :=
  isCount_unique (isCount_getKeyCount_wf h node) hn

theorem getKeyCount_le {L : Layout} (h : L.WellFormed) (node : BTLeafNode) :
    node.getKeyCount L ≤ L.NUM_PAIRS := by
  by_contra hc
  have hlt := ((isCount_getKeyCount_wf h node).1 L.NUM_PAIRS (by omega)).1
  rw [h.region] at hlt
  exact Nat.lt_irrefl _ hlt

theorem insert_of_le {L : Layout} {node : BTLeafNode} (key : Int) (rid : List Byte)
    (h : node.getKeyCount L ≤ L.NUM_PAIRS + 1) :
    node.insert L key rid = (RC.RC_NODE_FULL, node) := by
  simp [BTLeafNode.insert, h]

theorem insert_wf {L : Layout} (h : L.WellFormed) (node : BTLeafNode) (key : Int)
    (rid : List Byte) : node.insert L key rid = (RC.RC_NODE_FULL, node) :=
  insert_of_le key rid (Nat.le_succ_of_le (getKeyCount_le h node))

theorem byteAt_setNextNodePtr {L : Layout} (node : BTLeafNode) (pid : Int) {i : Nat}
    (hi : i < L.PAGE_SIZE - L.SIZEOF_PAGEID) :
    byteAt (node.setNextNodePtr L pid).2.buffer i = byteAt node.buffer i := by
  unfold BTLeafNode.setNextNodePtr
  split
  · rfl
  · simp only [byteAt_memcpy]
    rw [if_neg]
    omega

/-- The split, byte by byte. -/
theorem insertAndSplit_bytes {L : Layout} (hL : L.WellFormed) (node sibling : BTLeafNode)
    (key : Int) (rid : List Byte) (sk : Int)
    (hlen : node.buffer.length = L.PAGE_SIZE) (hslen : sibling.buffer.length = L.PAGE_SIZE)
    (hs : sibling.getKeyCount L = 0) (hn : L.NUM_PAIRS ≤ node.getKeyCount L) :
    (node.insertAndSplit L key rid sibling sk).rc = RC.ok ∧
    (∀ i, byteAt (node.insertAndSplit L key rid sibling sk).node.buffer i =
      if (L.NUM_PAIRS + 1) / 2 * L.PAIR_SIZE ≤ i ∧
          i < L.NUM_PAIRS * L.PAIR_SIZE - L.SIZEOF_PAGEID then 0
      else byteAt node.buffer i) ∧
    (∀ i, i < L.NUM_PAIRS * L.PAIR_SIZE →
      byteAt (node.insertAndSplit L key rid sibling sk).sibling.buffer i =
        if i < L.NUM_PAIRS / 2 * L.PAIR_SIZE then
          byteAt node.buffer ((L.NUM_PAIRS + 1) / 2 * L.PAIR_SIZE + i)
        else 0) := by
  have hc : node.getKeyCount L = L.NUM_PAIRS := Nat.le_antisymm (getKeyCount_le hL node) hn
  have hreg := hL.region
  obtain ⟨h1, h2, h3, h4, h5⟩ := hL
  have hL : L.WellFormed := ⟨h1, h2, h3, h4, h5⟩
  simp only [SIZEOF_INT] at h1
  have hsum : (L.NUM_PAIRS + 1) / 2 * L.PAIR_SIZE + L.NUM_PAIRS / 2 * L.PAIR_SIZE
      = L.NUM_PAIRS * L.PAIR_SIZE := by
    rw [← Nat.add_mul]; congr 1; omega
  have hS : L.PAIR_SIZE ≤ L.NUM_PAIRS / 2 * L.PAIR_SIZE :=
    Nat.le_mul_of_pos_left _ (by omega)
  have hF : L.PAIR_SIZE ≤ (L.NUM_PAIRS + 1) / 2 * L.PAIR_SIZE :=
    Nat.le_mul_of_pos_left _ (by omega)
  have e1 : usub (L.NUM_PAIRS * L.PAIR_SIZE) ((L.NUM_PAIRS + 1) / 2 * L.PAIR_SIZE)
      = L.NUM_PAIRS / 2 * L.PAIR_SIZE := by
    rw [usub_eq (by omega) (by norm_num at h5 ⊢; omega)]; omega
  have e2 : usub (L.NUM_PAIRS / 2 * L.PAIR_SIZE) L.SIZEOF_PAGEID
      = L.NUM_PAIRS / 2 * L.PAIR_SIZE - L.SIZEOF_PAGEID := by
    rw [usub_eq (by omega) (by norm_num at h5 ⊢; omega)]
  unfold BTLeafNode.insertAndSplit
  simp only [hs, ne_eq, not_true_eq_false, if_false, hc, Nat.lt_irrefl, hreg, e1, e2, insert_wf hL]
  simp only [ite_self]
  refine ⟨trivial, ?_, ?_⟩
  · intro i
    rw [byteAt_memset, hlen]
    split_ifs <;> first | rfl | omega
  · intro i hi
    rw [byteAt_setNextNodePtr _ _ (by omega)]
    simp only [byteAt_memcpy, byteAt_memset, length_memset, hslen, byteAt_drop, Nat.sub_zero]
    split_ifs <;> first | rfl | omega


/-! ## Fuel -/

/-- The fuel `PAGE_SIZE` is enough for the loop of `getKeyCount`: more fuel gives the same
result. -/
theorem getKeyCountLoop_fuel (L : Layout) (buffer : List Byte) (hp : 0 < L.PAIR_SIZE) :
    ∀ fuel i count extra, usub L.PAGE_SIZE L.SIZEOF_PAGEID ≤ i + fuel →
      getKeyCountLoop L buffer (fuel + extra) i count = getKeyCountLoop L buffer fuel i count := by
  intro fuel
  induction fuel with
  | zero =>
    intro i count extra h
    cases extra with
    | zero => rfl
    | succ e =>
      have hi : ¬ i < usub L.PAGE_SIZE L.SIZEOF_PAGEID := by omega
      simp [getKeyCountLoop, hi]
  | succ fuel ih =>
    intro i count extra h
    rw [show fuel + 1 + extra = (fuel + extra) + 1 by omega]
    unfold getKeyCountLoop
    rw [ih _ _ _ (by omega)]

/-- The fuel `PAGE_SIZE` is enough for the loop of `locate`. -/
theorem locateLoop_fuel (L : Layout) (buffer : List Byte) (searchKey : Int)
    (hp : 0 < L.PAIR_SIZE) :
    ∀ fuel i extra, usub L.PAGE_SIZE L.SIZEOF_PAGEID ≤ i + fuel →
      locateLoop L buffer searchKey (fuel + extra) i = locateLoop L buffer searchKey fuel i := by
  intro fuel
  induction fuel with
  | zero =>
    intro i extra h
    cases extra with
    | zero => rfl
    | succ e =>
      have hi : ¬ i < usub L.PAGE_SIZE L.SIZEOF_PAGEID := by omega
      simp [locateLoop, hi]
  | succ fuel ih =>
    intro i extra h
    rw [show fuel + 1 + extra = (fuel + extra) + 1 by omega]
    unfold locateLoop
    rw [ih _ _ (by omega)]

/-- The fuel `PAGE_SIZE` is enough for the scan of `insert`. -/
theorem insertScan_fuel (L : Layout) (buffer : List Byte) (key : Int) (hp : 0 < L.PAIR_SIZE) :
    ∀ fuel i extra, usub L.PAGE_SIZE L.SIZEOF_PAGEID ≤ i + fuel →
      insertScan L buffer key (fuel + extra) i = insertScan L buffer key fuel i := by
  intro fuel
  induction fuel with
  | zero =>
    intro i extra h
    cases extra with
    | zero => rfl
    | succ e =>
      have hi : ¬ i < usub L.PAGE_SIZE L.SIZEOF_PAGEID := by omega
      simp [insertScan, hi]
  | succ fuel ih =>
    intro i extra h
    rw [show fuel + 1 + extra = (fuel + extra) + 1 by omega]
    unfold insertScan
    rw [ih _ _ (by omega)]

/-! ## The split -/

theorem slot_end_le {k m : Nat} (P : Nat) (h : k < m) : k * P + P ≤ m * P := by
  have := Nat.mul_le_mul_right P (Nat.succ_le_of_lt h)
  rwa [Nat.succ_mul] at this

theorem keyAt_eq_of_bytes {L : Layout} {a b : BTLeafNode} {k k2 : Nat}
    (h : ∀ j, j < SIZEOF_INT →
      byteAt a.buffer (k * L.PAIR_SIZE + j) = byteAt b.buffer (k2 * L.PAIR_SIZE + j)) :
    a.keyAt L k = b.keyAt L k2 := by
  unfold BTLeafNode.keyAt
  apply readInt_congr
  intro j hj
  rw [byteAt_drop, byteAt_drop]
  exact h j hj

theorem ridAt_eq_of_bytes {L : Layout} {a b : BTLeafNode} {k k2 : Nat}
    (h : ∀ j, j < L.SIZEOF_RECORDID →
      byteAt a.buffer (k * L.PAIR_SIZE + SIZEOF_INT + j)
        = byteAt b.buffer (k2 * L.PAIR_SIZE + SIZEOF_INT + j)) :
    a.ridAt L k = b.ridAt L k2 := by
  unfold BTLeafNode.ridAt
  apply readBytes_congr
  intro j hj
  rw [byteAt_drop, byteAt_drop]
  exact h j hj

theorem split_node_bytes {L : Layout} {node sibling : BTLeafNode} (h : SplitReady L node sibling)
    (key : Int) (rid : List Byte) (sk : Int) {k j : Nat}
    (hk : k < (L.NUM_PAIRS + 1) / 2) (hj : j < L.PAIR_SIZE) :
    byteAt (node.insertAndSplit L key rid sibling sk).node.buffer (k * L.PAIR_SIZE + j)
      = byteAt node.buffer (k * L.PAIR_SIZE + j) := by
  obtain ⟨hL, hlen, hslen, hs, hn⟩ := h
  rw [(insertAndSplit_bytes hL node sibling key rid sk hlen hslen hs hn).2.1, if_neg]
  have := slot_end_le L.PAIR_SIZE hk
  omega

theorem split_sibling_bytes {L : Layout} {node sibling : BTLeafNode}
    (h : SplitReady L node sibling) (key : Int) (rid : List Byte) (sk : Int) {k j : Nat}
    (hk : k < L.NUM_PAIRS / 2) (hj : j < L.PAIR_SIZE) :
    byteAt (node.insertAndSplit L key rid sibling sk).sibling.buffer (k * L.PAIR_SIZE + j)
      = byteAt node.buffer (((L.NUM_PAIRS + 1) / 2 + k) * L.PAIR_SIZE + j) := by
  obtain ⟨hL, hlen, hslen, hs, hn⟩ := h
  have h1 := slot_end_le L.PAIR_SIZE hk
  have h2 : L.NUM_PAIRS / 2 * L.PAIR_SIZE ≤ L.NUM_PAIRS * L.PAIR_SIZE :=
    Nat.mul_le_mul_right _ (Nat.div_le_self _ _)
  rw [(insertAndSplit_bytes hL node sibling key rid sk hlen hslen hs hn).2.2 _ (by omega),
    if_pos (by omega), Nat.add_mul, Nat.add_assoc]

theorem split_node_count {L : Layout} {node sibling : BTLeafNode} (h : SplitReady L node sibling)
    (key : Int) (rid : List Byte) (sk : Int) :
    (node.insertAndSplit L key rid sibling sk).node.getKeyCount L = (L.NUM_PAIRS + 1) / 2 := by
  have hb := fun k j => @split_node_bytes L node sibling h key rid sk k j
  obtain ⟨hL, hlen, hslen, hs, hn⟩ := h
  have hc : node.getKeyCount L = L.NUM_PAIRS := Nat.le_antisymm (getKeyCount_le hL node) hn
  have hold := isCount_getKeyCount_wf hL node
  rw [hc] at hold
  have hz := (insertAndSplit_bytes hL node sibling key rid sk hlen hslen hs hn).2.1
  apply getKeyCount_eq_wf hL
  have hreg := hL.region
  obtain ⟨h1, h2, h3, h4, h5⟩ := hL
  simp only [SIZEOF_INT] at h1
  constructor
  · intro k hk
    have hkN : k < L.NUM_PAIRS := by omega
    refine ⟨(hold.1 k hkN).1, ?_⟩
    have e : readInt (List.drop (k * L.PAIR_SIZE)
        (node.insertAndSplit L key rid sibling sk).node.buffer)
        = readInt (List.drop (k * L.PAIR_SIZE) node.buffer) := by
      apply readInt_congr
      intro j hj
      simp only [SIZEOF_INT] at hj
      rw [byteAt_drop, byteAt_drop]
      exact hb k j hk (by omega)
    rw [e]
    exact (hold.1 k hkN).2
  · intro _
    apply readInt_zero
    intro j hj
    simp only [SIZEOF_INT] at hj
    rw [byteAt_drop, hz, if_pos]
    have hsum : (L.NUM_PAIRS + 1) / 2 * L.PAIR_SIZE + L.NUM_PAIRS / 2 * L.PAIR_SIZE
        = L.NUM_PAIRS * L.PAIR_SIZE := by
      rw [← Nat.add_mul]; congr 1; omega
    have hS : L.PAIR_SIZE ≤ L.NUM_PAIRS / 2 * L.PAIR_SIZE :=
      Nat.le_mul_of_pos_left _ (by omega)
    omega

theorem split_sibling_count {L : Layout} {node sibling : BTLeafNode}
    (h : SplitReady L node sibling) (key : Int) (rid : List Byte) (sk : Int) :
    (node.insertAndSplit L key rid sibling sk).sibling.getKeyCount L = L.NUM_PAIRS / 2 := by
  have hb := fun k j => @split_sibling_bytes L node sibling h key rid sk k j
  obtain ⟨hL, hlen, hslen, hs, hn⟩ := h
  have hc : node.getKeyCount L = L.NUM_PAIRS := Nat.le_antisymm (getKeyCount_le hL node) hn
  have hold := isCount_getKeyCount_wf hL node
  rw [hc] at hold
  have hz := (insertAndSplit_bytes hL node sibling key rid sk hlen hslen hs hn).2.2
  apply getKeyCount_eq_wf hL
  have hreg := hL.region
  obtain ⟨h1, h2, h3, h4, h5⟩ := hL
  simp only [SIZEOF_INT] at h1
  have hsum : (L.NUM_PAIRS + 1) / 2 * L.PAIR_SIZE + L.NUM_PAIRS / 2 * L.PAIR_SIZE
      = L.NUM_PAIRS * L.PAIR_SIZE := by
    rw [← Nat.add_mul]; congr 1; omega
  have hF : L.PAIR_SIZE ≤ (L.NUM_PAIRS + 1) / 2 * L.PAIR_SIZE :=
    Nat.le_mul_of_pos_left _ (by omega)
  constructor
  · intro k hk
    have hkN : (L.NUM_PAIRS + 1) / 2 + k < L.NUM_PAIRS := by omega
    have hend := slot_end_le L.PAIR_SIZE hk
    refine ⟨by rw [hreg]; omega, ?_⟩
    have e : readInt (List.drop (k * L.PAIR_SIZE)
        (node.insertAndSplit L key rid sibling sk).sibling.buffer)
        = readInt (List.drop (((L.NUM_PAIRS + 1) / 2 + k) * L.PAIR_SIZE) node.buffer) := by
      apply readInt_congr
      intro j hj
      simp only [SIZEOF_INT] at hj
      rw [byteAt_drop, byteAt_drop]
      exact hb k j hk (by omega)
    rw [e]
    exact (hold.1 _ hkN).2
  · intro _
    apply readInt_zero
    intro j hj
    simp only [SIZEOF_INT] at hj
    rw [byteAt_drop, hz _ (by omega), if_neg (by omega)]

theorem split_node_entries {L : Layout} {node sibling : BTLeafNode}
    (h : SplitReady L node sibling) (key : Int) (rid : List Byte) (sk : Int) :
    (node.insertAndSplit L key rid sibling sk).node.entries L
      = (node.entries L).take ((node.getKeyCount L + 1) / 2) := by
  have hc : node.getKeyCount L = L.NUM_PAIRS := Nat.le_antisymm (getKeyCount_le h.1 node) h.2.2.2.2
  have h1 := h.1.2.2.2.1
  unfold BTLeafNode.entries
  rw [split_node_count h, hc, ← List.map_take, List.take_range,
    Nat.min_eq_left (by omega)]
  apply List.map_congr_left
  intro k hk
  have hk := List.mem_range.mp hk
  have hp : L.PAIR_SIZE = SIZEOF_INT + L.SIZEOF_RECORDID := h.1.1
  have hkey : (node.insertAndSplit L key rid sibling sk).node.keyAt L k = node.keyAt L k :=
    keyAt_eq_of_bytes (fun j hj => split_node_bytes h key rid sk hk (by omega))
  have hrid : (node.insertAndSplit L key rid sibling sk).node.ridAt L k = node.ridAt L k :=
    ridAt_eq_of_bytes (fun j hj => by
      simp only [Nat.add_assoc]
      exact split_node_bytes h key rid sk hk (by omega))
  rw [hkey, hrid]

theorem split_sibling_entries {L : Layout} {node sibling : BTLeafNode}
    (h : SplitReady L node sibling) (key : Int) (rid : List Byte) (sk : Int) :
    (node.insertAndSplit L key rid sibling sk).sibling.entries L
      = (node.entries L).drop ((node.getKeyCount L + 1) / 2) := by
  have hc : node.getKeyCount L = L.NUM_PAIRS := Nat.le_antisymm (getKeyCount_le h.1 node) h.2.2.2.2
  have h1 := h.1.2.2.2.1
  have hp : L.PAIR_SIZE = SIZEOF_INT + L.SIZEOF_RECORDID := h.1.1
  unfold BTLeafNode.entries
  rw [split_sibling_count h, hc]
  apply List.ext_getElem?
  intro k
  by_cases hk : k < L.NUM_PAIRS / 2
  · have hk2 : (L.NUM_PAIRS + 1) / 2 + k < L.NUM_PAIRS := by omega
    simp only [List.getElem?_map, List.getElem?_drop, List.getElem?_range hk,
      List.getElem?_range hk2, Option.map_some']
    have hkey : (node.insertAndSplit L key rid sibling sk).sibling.keyAt L k
        = node.keyAt L ((L.NUM_PAIRS + 1) / 2 + k) :=
      keyAt_eq_of_bytes (fun j hj => split_sibling_bytes h key rid sk hk (by omega))
    have hrid : (node.insertAndSplit L key rid sibling sk).sibling.ridAt L k
        = node.ridAt L ((L.NUM_PAIRS + 1) / 2 + k) :=
      ridAt_eq_of_bytes (fun j hj => by
        simp only [Nat.add_assoc]
        exact split_sibling_bytes h key rid sk hk (by omega))
    rw [hkey, hrid]
  · rw [List.getElem?_eq_none (by simp; omega), List.getElem?_eq_none (by simp; omega)]

/-! ## Integer encoding -/

theorem leNat_append (a b : List Byte) :
    leNat (a ++ b) = leNat a + 256 ^ a.length * leNat b := by
  induction a with
  | nil => simp [leNat]
  | cons x xs ih =>
    show leNat (x :: (xs ++ b)) = leNat (x :: xs) + 256 ^ (xs.length + 1) * leNat b
    simp only [leNat, ih, pow_succ]
    ring

theorem leNat_lt (bs : List Byte) : leNat bs < 256 ^ bs.length := by
  induction bs with
  | nil => simp [leNat]
  | cons x xs ih =>
    have hx := x.isLt
    simp only [leNat, List.length_cons, pow_succ]
    omega

theorem leNat_digits (n w : Nat) :
    leNat ((List.range w).map fun j =>
      (⟨n / 256 ^ j % 256, Nat.mod_lt _ (by decide)⟩ : Byte)) = n % 256 ^ w := by
  induction w with
  | zero => simp [leNat, Nat.mod_one]
  | succ w ih =>
    rw [List.range_succ, List.map_append, leNat_append, ih, Nat.mod_pow_succ]
    simp [leNat]

theorem two_pow_eight_mul (w : Nat) : 2 ^ (8 * w) = 256 ^ w := by
  rw [pow_mul]; norm_num

theorem leNat_intBytes (w : Nat) (v : Int) :
    (leNat (intBytes w v) : Int) = v % 2 ^ (8 * w) := by
  unfold intBytes
  rw [leNat_digits]
  have hpos : (0 : Int) < 2 ^ (8 * w) := by positivity
  have h0 : 0 ≤ v % 2 ^ (8 * w) := Int.emod_nonneg _ (ne_of_gt hpos)
  have h1 : v % 2 ^ (8 * w) < 2 ^ (8 * w) := Int.emod_lt_of_pos _ hpos
  have h2 : (v % 2 ^ (8 * w)).toNat < 256 ^ w := by
    rw [← two_pow_eight_mul]
    have : ((v % 2 ^ (8 * w)).toNat : Int) < ((2 ^ (8 * w) : Nat) : Int) := by
      rw [Int.toNat_of_nonneg h0]; push_cast; exact h1
    exact_mod_cast this
  rw [Nat.mod_eq_of_lt h2, Int.toNat_of_nonneg h0]

/-- Decoding the object representation of a value of the signed range gives the value. -/
theorem toSigned_intBytes (w : Nat) (v : Int) (hlo : -(2 ^ (8 * w) : Int) ≤ 2 * v)
    (hhi : 2 * v < 2 ^ (8 * w)) : toSigned w (leNat (intBytes w v)) = v := by
  have h := leNat_intBytes w v
  have hpos : (0 : Int) < 2 ^ (8 * w) := by positivity
  unfold toSigned
  by_cases hv : 0 ≤ v
  · have e : v % 2 ^ (8 * w) = v := Int.emod_eq_of_lt hv (by omega)
    rw [e] at h
    have hc : 2 * leNat (intBytes w v) < 2 ^ (8 * w) := by
      have : ((2 * leNat (intBytes w v) : Nat) : Int) < ((2 ^ (8 * w) : Nat) : Int) := by
        push_cast; rw [h]; exact hhi
      exact_mod_cast this
    rw [if_pos hc, h]
  · have e : v % 2 ^ (8 * w) = v + 2 ^ (8 * w) := by
      have : (v + 2 ^ (8 * w)) % 2 ^ (8 * w) = v + 2 ^ (8 * w) :=
        Int.emod_eq_of_lt (by omega) (by omega)
      rw [← this, Int.add_emod_self]
    rw [e] at h
    have hc : ¬ 2 * leNat (intBytes w v) < 2 ^ (8 * w) := by
      intro hlt
      have : ((2 * leNat (intBytes w v) : Nat) : Int) < ((2 ^ (8 * w) : Nat) : Int) := by
        exact_mod_cast hlt
      push_cast at this
      rw [h] at this
      omega
    rw [if_neg hc, h]
    ring

/-- A decoded value lies in the signed range. -/
theorem toSigned_range (w n : Nat) (h : n < 2 ^ (8 * w)) :
    -(2 ^ (8 * w) : Int) ≤ 2 * toSigned w n ∧ 2 * toSigned w n < 2 ^ (8 * w) := by
  have hi : ((n : Nat) : Int) < ((2 ^ (8 * w) : Nat) : Int) := by exact_mod_cast h
  push_cast at hi
  unfold toSigned
  split
  · rename_i hc
    have : ((2 * n : Nat) : Int) < ((2 ^ (8 * w) : Nat) : Int) := by exact_mod_cast hc
    push_cast at this
    constructor <;> omega
  · rename_i hc
    have : ¬ ((2 * n : Nat) : Int) < ((2 ^ (8 * w) : Nat) : Int) := by exact_mod_cast hc
    push_cast at this
    constructor <;> omega

@[simp] theorem length_readBytes (src : List Byte) (n : Nat) : (readBytes src n).length = n := by
  simp [readBytes]

@[simp] theorem length_intBytes (w : Nat) (v : Int) : (intBytes w v).length = w := by
  simp [intBytes]

theorem byteAt_of_lt {b : List Byte} {i : Nat} (h : i < b.length) : byteAt b i = b[i] := by
  simp [byteAt, List.getD_eq_getElem?_getD, List.getElem?_eq_getElem h]

theorem ext_byteAt {a b : List Byte} (hl : a.length = b.length)
    (h : ∀ i, i < a.length → byteAt a i = byteAt b i) : a = b := by
  apply List.ext_getElem hl
  intro i h1 h2
  rw [← byteAt_of_lt h1, ← byteAt_of_lt h2]
  exact h i h1

theorem byteAt_readBytes (src : List Byte) {n i : Nat} (h : i < n) :
    byteAt (readBytes src n) i = byteAt src i := by
  rw [byteAt_of_lt (by simp [h])]
  simp [readBytes]

theorem readBytes_eq_self {bs : List Byte} {n : Nat} (h : bs.length = n) :
    readBytes bs n = bs :=
  ext_byteAt (by simp [h]) (fun i hi => byteAt_readBytes bs (by simpa using hi))

/-! ## The next-node pointer -/

theorem getNextNodePtr_congr {L : Layout} {a b : BTLeafNode}
    (h : ∀ j, j < L.SIZEOF_PAGEID →
      byteAt a.buffer (L.PAGE_SIZE - L.SIZEOF_PAGEID + j)
        = byteAt b.buffer (L.PAGE_SIZE - L.SIZEOF_PAGEID + j)) :
    a.getNextNodePtr L = b.getNextNodePtr L := by
  unfold BTLeafNode.getNextNodePtr readPageId
  have e : readBytes (List.drop (L.PAGE_SIZE - L.SIZEOF_PAGEID) a.buffer) L.SIZEOF_PAGEID
      = readBytes (List.drop (L.PAGE_SIZE - L.SIZEOF_PAGEID) b.buffer) L.SIZEOF_PAGEID :=
    readBytes_congr (fun j hj => by rw [byteAt_drop, byteAt_drop]; exact h j hj)
  rw [e]

theorem getNextNodePtr_range (L : Layout) (node : BTLeafNode) :
    -(2 ^ (8 * L.SIZEOF_PAGEID) : Int) ≤ 2 * node.getNextNodePtr L ∧
    2 * node.getNextNodePtr L < 2 ^ (8 * L.SIZEOF_PAGEID) := by
  unfold BTLeafNode.getNextNodePtr readPageId
  apply toSigned_range
  rw [two_pow_eight_mul]
  have := leNat_lt (readBytes (List.drop (L.PAGE_SIZE - L.SIZEOF_PAGEID) node.buffer)
    L.SIZEOF_PAGEID)
  simpa using this

/-- Setting the next-node pointer to a page id of the non-negative `PageId` range and reading
it back gives that page id. -/
theorem getNextNodePtr_setNextNodePtr (L : Layout) (node : BTLeafNode) (pid : Int)
    (hlen : node.buffer.length = L.PAGE_SIZE) (hw : L.SIZEOF_PAGEID ≤ L.PAGE_SIZE)
    (h0 : 0 ≤ pid) (h1 : 2 * pid < 2 ^ (8 * L.SIZEOF_PAGEID)) :
    (node.setNextNodePtr L pid).2.getNextNodePtr L = pid := by
  unfold BTLeafNode.setNextNodePtr
  rw [if_neg (by omega)]
  unfold BTLeafNode.getNextNodePtr readPageId
  have e : readBytes (List.drop (L.PAGE_SIZE - L.SIZEOF_PAGEID)
      (memcpy node.buffer (L.PAGE_SIZE - L.SIZEOF_PAGEID) (intBytes L.SIZEOF_PAGEID pid)
        L.SIZEOF_PAGEID)) L.SIZEOF_PAGEID = intBytes L.SIZEOF_PAGEID pid := by
    rw [← readBytes_eq_self (length_intBytes L.SIZEOF_PAGEID pid)]
    apply readBytes_congr
    intro j hj
    rw [byteAt_drop, byteAt_memcpy, if_pos ⟨by omega, by omega, by omega⟩,
      readBytes_eq_self (length_intBytes _ _)]
    congr 1
    omega
  simp only [e]
  exact toSigned_intBytes _ _ (by have : (0 : Int) < 2 ^ (8 * L.SIZEOF_PAGEID) := by positivity
                                  omega) h1

/-! ## Pages that agree on the entry region -/

theorem keyAt_congr {L : Layout} (hL : L.WellFormed) {a b : BTLeafNode}
    (h : ∀ i, i < L.NUM_PAIRS * L.PAIR_SIZE → byteAt a.buffer i = byteAt b.buffer i)
    {k : Nat} (hk : k < L.NUM_PAIRS) : a.keyAt L k = b.keyAt L k := by
  have hp : L.PAIR_SIZE = SIZEOF_INT + L.SIZEOF_RECORDID := hL.1
  have := slot_end_le L.PAIR_SIZE hk
  exact keyAt_eq_of_bytes (fun j hj => h _ (by omega))

theorem ridAt_congr {L : Layout} (hL : L.WellFormed) {a b : BTLeafNode}
    (h : ∀ i, i < L.NUM_PAIRS * L.PAIR_SIZE → byteAt a.buffer i = byteAt b.buffer i)
    {k : Nat} (hk : k < L.NUM_PAIRS) : a.ridAt L k = b.ridAt L k := by
  have hp : L.PAIR_SIZE = SIZEOF_INT + L.SIZEOF_RECORDID := hL.1
  have := slot_end_le L.PAIR_SIZE hk
  exact ridAt_eq_of_bytes (fun j hj => h _ (by omega))

theorem getKeyCount_congr {L : Layout} (hL : L.WellFormed) {a b : BTLeafNode}
    (h : ∀ i, i < L.NUM_PAIRS * L.PAIR_SIZE → byteAt a.buffer i = byteAt b.buffer i) :
    a.getKeyCount L = b.getKeyCount L := by
  apply getKeyCount_eq_wf hL
  have hb := isCount_getKeyCount_wf hL b
  have hreg := hL.region
  have hpos := hL.pair_pos
  unfold IsCount at hb ⊢
  rw [hreg] at hb ⊢
  constructor
  · intro k hk
    have hkN : k < L.NUM_PAIRS := Nat.lt_of_mul_lt_mul_right (hb.1 k hk).1
    have e := keyAt_congr hL h hkN
    unfold BTLeafNode.keyAt at e
    rw [e]
    exact hb.1 k hk
  · intro hlt
    have hkN : b.getKeyCount L < L.NUM_PAIRS := Nat.lt_of_mul_lt_mul_right hlt
    have e := keyAt_congr hL h hkN
    unfold BTLeafNode.keyAt at e
    rw [e]
    exact hb.2 hlt

theorem entries_congr {L : Layout} (hL : L.WellFormed) {a b : BTLeafNode}
    (h : ∀ i, i < L.NUM_PAIRS * L.PAIR_SIZE → byteAt a.buffer i = byteAt b.buffer i) :
    a.entries L = b.entries L := by
  unfold BTLeafNode.entries
  rw [getKeyCount_congr hL h]
  apply List.map_congr_left
  intro k hk
  have hkN : k < L.NUM_PAIRS :=
    Nat.lt_of_lt_of_le (List.mem_range.mp hk) (getKeyCount_le hL b)
  rw [keyAt_congr hL h hkN, ridAt_congr hL h hkN]

theorem keys_eq_map_entries (L : Layout) (node : BTLeafNode) :
    node.keys L = (node.entries L).map Prod.fst := by
  simp [BTLeafNode.keys, BTLeafNode.entries, List.map_map, Function.comp_def]

/-! ## The split and the next-node pointer -/

/-- The sibling after a split is the result of `setNextNodePtr` with the receiver's next-node
pointer on a page-sized buffer. -/
theorem insertAndSplit_sibling_eq {L : Layout} {node sibling : BTLeafNode}
    (h : SplitReady L node sibling) (key : Int) (rid : List Byte) (sk : Int) :
    ∃ s0 : BTLeafNode, s0.buffer.length = L.PAGE_SIZE ∧
      (node.insertAndSplit L key rid sibling sk).sibling
        = (s0.setNextNodePtr L (node.getNextNodePtr L)).2 := by
  obtain ⟨hL, hlen, hslen, hs, hn⟩ := h
  have hc : node.getKeyCount L = L.NUM_PAIRS := Nat.le_antisymm (getKeyCount_le hL node) hn
  unfold BTLeafNode.insertAndSplit
  simp only [hs, ne_eq, not_true_eq_false, if_false, hc, Nat.lt_irrefl, insert_wf hL, ite_self]
  exact ⟨_, by simp [hslen], rfl⟩

theorem split_sibling_next {L : Layout} {node sibling : BTLeafNode}
    (h : SplitReady L node sibling) (key : Int) (rid : List Byte) (sk : Int)
    (h0 : 0 ≤ node.getNextNodePtr L) :
    (node.insertAndSplit L key rid sibling sk).sibling.getNextNodePtr L
      = node.getNextNodePtr L := by
  obtain ⟨s0, hs0, e⟩ := insertAndSplit_sibling_eq h key rid sk
  rw [e]
  have hw : L.SIZEOF_PAGEID ≤ L.PAGE_SIZE := by have := h.1.2.2.1; omega
  exact getNextNodePtr_setNextNodePtr L s0 _ hs0 hw h0 (getNextNodePtr_range L node).2

theorem split_node_next {L : Layout} {node sibling : BTLeafNode}
    (h : SplitReady L node sibling) (key : Int) (rid : List Byte) (sk : Int) :
    (node.insertAndSplit L key rid sibling sk).node.getNextNodePtr L
      = node.getNextNodePtr L := by
  obtain ⟨hL, hlen, hslen, hs, hn⟩ := h
  apply getNextNodePtr_congr
  intro j hj
  rw [(insertAndSplit_bytes hL node sibling key rid sk hlen hslen hs hn).2.1, if_neg]
  have := hL.2.2.1
  omega

/-! ## The claims -/

/-- C1 (code defect). On the page holding the keys 2, 5, 9, which has 3 of the 4 slots of its
layout in use, `insert(7, rid)` returns `RC_NODE_FULL` and leaves the page as it was: the guard
`getKeyCount() <= NUM_PAIRS+1` holds for a node that is not full. -/
theorem insert_below_capacity_fails :
    page3.keys small = [2, 5, 9] ∧ page3.getKeyCount small < small.NUM_PAIRS ∧
    page3.insert small 7 rid0 = (RC.RC_NODE_FULL, page3) := by
  decide

/-- C2 (code defect). Splitting the full page 10, 20, 30, 40 with the new key 25 succeeds, but
the two nodes hold 2 + 2 = 4 entries afterwards, not 5, and the key 25 is in neither of them:
the nested `insert` returns `RC_NODE_FULL` and its result is ignored. -/
theorem insertAndSplit_drops_key :
    page4.getKeyCount small = 4 ∧ emptyPage.getKeyCount small = 0 ∧
    (page4.insertAndSplit small 25 rid0 emptyPage 0).rc = RC.ok ∧
    (page4.insertAndSplit small 25 rid0 emptyPage 0).node.keys small = [10, 20] ∧
    (page4.insertAndSplit small 25 rid0 emptyPage 0).sibling.keys small = [30, 40] ∧
    (page4.insertAndSplit small 25 rid0 emptyPage 0).node.getKeyCount small
      + (page4.insertAndSplit small 25 rid0 emptyPage 0).sibling.getKeyCount small ≠ 4 + 1 := by
  decide

/-- C3 (counterexample). Splitting the full page 10, 20, 30, 40 with the new key 35 succeeds and
the receiver does not hold the first `ceil((4+1)/2) = 3` entries 10, 20, 30 of the combined
sequence 10, 20, 30, 35, 40: it holds 10, 20, and the sibling holds 30, 40. -/
theorem insertAndSplit_partition_counterexample :
    (page4.insertAndSplit small 35 rid0 emptyPage 0).rc = RC.ok ∧
    (page4.insertAndSplit small 35 rid0 emptyPage 0).node.keys small
      ≠ List.take ((4 + 1 + 1) / 2) [10, 20, 30, 35, 40] ∧
    (page4.insertAndSplit small 35 rid0 emptyPage 0).node.keys small = [10, 20] ∧
    (page4.insertAndSplit small 35 rid0 emptyPage 0).sibling.keys small = [30, 40] := by
  decide

/-- C3 (amended). For well-formed constants, a page-sized receiver with
`count = getKeyCount() >= NUM_PAIRS`, a page-sized empty sibling and a key that is not stored in
the receiver, `insertAndSplit` returns 0 and, the entry of the new key apart, the receiver holds
exactly the first `(count+1)/2` entries of the old sequence and the sibling holds the remaining
old entries in order. -/
theorem insertAndSplit_partition (L : Layout) (node sibling : BTLeafNode) (key : Int)
    (rid : List Byte) (siblingKey : Int) (hL : L.WellFormed)
    (hlen : node.buffer.length = L.PAGE_SIZE) (hslen : sibling.buffer.length = L.PAGE_SIZE)
    (hs : sibling.getKeyCount L = 0) (hn : L.NUM_PAIRS ≤ node.getKeyCount L)
    (hkey : key ∉ node.keys L) :
    (node.insertAndSplit L key rid sibling siblingKey).rc = RC.ok ∧
    ((node.insertAndSplit L key rid sibling siblingKey).node.entries L).filter
        (fun e => decide (e.1 ≠ key))
      = (node.entries L).take ((node.getKeyCount L + 1) / 2) ∧
    ((node.insertAndSplit L key rid sibling siblingKey).sibling.entries L).filter
        (fun e => decide (e.1 ≠ key))
      = (node.entries L).drop ((node.getKeyCount L + 1) / 2) := by
  have h : SplitReady L node sibling := ⟨hL, hlen, hslen, hs, hn⟩
  have hne : ∀ e ∈ node.entries L, decide (e.1 ≠ key) = true := by
    intro e he
    unfold BTLeafNode.entries at he
    obtain ⟨k, hk, rfl⟩ := List.mem_map.mp he
    simp only [ne_eq, decide_eq_true_eq]
    intro hk2
    exact hkey (List.mem_map.mpr ⟨k, hk, hk2⟩)
  refine ⟨(insertAndSplit_bytes hL node sibling key rid siblingKey hlen hslen hs hn).1, ?_, ?_⟩
  · rw [split_node_entries h, List.filter_eq_self]
    exact fun e he => hne e (List.mem_of_mem_take he)
  · rw [split_sibling_entries h, List.filter_eq_self]
    exact fun e he => hne e (List.mem_of_mem_drop he)

/-- C3 (amended), at the full page 10, 20, 30, 40 with the new key 35. -/
theorem insertAndSplit_partition_witness :
    (page4.insertAndSplit small 35 rid0 emptyPage 0).rc = RC.ok ∧
    ((page4.insertAndSplit small 35 rid0 emptyPage 0).node.entries small).filter
        (fun e => decide (e.1 ≠ 35))
      = (page4.entries small).take ((page4.getKeyCount small + 1) / 2) ∧
    ((page4.insertAndSplit small 35 rid0 emptyPage 0).sibling.entries small).filter
        (fun e => decide (e.1 ≠ 35))
      = (page4.entries small).drop ((page4.getKeyCount small + 1) / 2) :=
  insertAndSplit_partition small page4 emptyPage 35 rid0 0 (by decide) (by decide) (by decide)
    (by decide) (by decide) (by decide)

/-- C4 (code defect). On the page holding the keys 2, 5, 9, `locate(7)` returns
`RC_NO_SUCH_RECORD` with `eid = 3`, the key count, and not the index 2 of the first entry whose
key is greater than 7: after the loop `eid` is always set to `getKeyCount()`. -/
theorem locate_missing_key_eid :
    page3.keys small = [2, 5, 9] ∧ page3.locate small 7 = (RC.RC_NO_SUCH_RECORD, 3) := by
  decide

/-- C5 (code defect). The loop of `locate` does not stop at the end of the entries: on the
zeroed page, which holds no entry, `locate(0)` returns 0 with `eid = 0`, and on the page holding
the keys -5, -2 it returns 0 with `eid = 2 = getKeyCount()`. -/
theorem locate_finds_absent_key :
    emptyPage.getKeyCount small = 0 ∧ emptyPage.locate small 0 = (RC.ok, 0) ∧
    pageNeg.keys small = [-5, -2] ∧ pageNeg.locate small 0 = (RC.ok, 2) := by
  decide

/-- C6 (counterexample). On the page on which the two entries with the keys 0 and 5 are laid
out, `getKeyCount()` returns 0 and not 2. -/
theorem getKeyCount_zero_key_counterexample :
    pageZeroKey.keyAt small 0 = 0 ∧ pageZeroKey.keyAt small 1 = 5 ∧
    pageZeroKey.getKeyCount small ≠ 2 ∧ pageZeroKey.getKeyCount small = 0 := by
  decide

/-- C6 (amended). For well-formed constants and `n <= NUM_PAIRS`, on a page whose slots
`0 .. n-1` hold non-zero keys and whose slot `n`, when `n < NUM_PAIRS`, holds the key zero,
`getKeyCount()` returns `n`: the count is the index of the first zero-valued key. -/
theorem getKeyCount_eq_first_zero_key (L : Layout) (node : BTLeafNode) (n : Nat)
    (hL : L.WellFormed) (hn : n ≤ L.NUM_PAIRS) (hkeys : ∀ k, k < n → node.keyAt L k ≠ 0)
    (hend : n < L.NUM_PAIRS → node.keyAt L n = 0) : node.getKeyCount L = n := by
  apply getKeyCount_eq_wf hL
  rw [IsCount, hL.region]
  have hp := hL.pair_pos
  constructor
  · intro k hk
    exact ⟨Nat.mul_lt_mul_of_lt_of_le (by omega) (Nat.le_refl _) hp, hkeys k hk⟩
  · intro h
    exact hend (Nat.lt_of_mul_lt_mul_right h)

/-- C6 (amended), at the page holding the keys 2, 5, 9. -/
theorem getKeyCount_eq_first_zero_key_witness : page3.getKeyCount small = 3 :=
  getKeyCount_eq_first_zero_key small page3 3 (by decide) (by decide) (by decide) (by decide)

/-- C7 (code defect). On the page holding the keys 2, 5, 9, whose key count is 3,
`readEntry(3, key, rid)` returns 0 and outputs the zero bytes of the unused slot 3: the bound
check `eid > getKeyCount()` lets the index `getKeyCount()` through. -/
theorem readEntry_at_count_succeeds :
    page3.getKeyCount small = 3 ∧
    page3.readEntry small 3 77 rid0 = (RC.ok, 0, [0, 0, 0, 0, 0, 0, 0, 0]) := by
  decide

/-- C8. When `getKeyCount()` equals `NUM_PAIRS`, `insert` returns `RC_NODE_FULL` and the page
buffer is unchanged. -/
theorem insert_full (L : Layout) (node : BTLeafNode) (key : Int) (rid : List Byte)
    (h : node.getKeyCount L = L.NUM_PAIRS) :
    (node.insert L key rid).1 = RC.RC_NODE_FULL ∧
    (node.insert L key rid).2.buffer = node.buffer := by
  rw [insert_of_le key rid (by omega)]
  exact ⟨rfl, rfl⟩

/-- C8, at the full page 10, 20, 30, 40. -/
theorem insert_full_witness :
    page4.getKeyCount small = small.NUM_PAIRS ∧
    (page4.insert small 25 rid0).1 = RC.RC_NODE_FULL ∧
    (page4.insert small 25 rid0).2.buffer = page4.buffer :=
  ⟨by decide, insert_full small page4 25 rid0 (by decide)⟩

/-- C9. When the sibling is not empty, `insertAndSplit` returns the error
`RC_INVALID_ATTRIBUTE` and the buffers of the receiver and of the sibling are unchanged. -/
theorem insertAndSplit_nonempty_sibling (L : Layout) (node sibling : BTLeafNode) (key : Int)
    (rid : List Byte) (siblingKey : Int) (h : sibling.getKeyCount L ≠ 0) :
    (node.insertAndSplit L key rid sibling siblingKey).rc = RC.RC_INVALID_ATTRIBUTE ∧
    (node.insertAndSplit L key rid sibling siblingKey).rc ≠ RC.ok ∧
    (node.insertAndSplit L key rid sibling siblingKey).node.buffer = node.buffer ∧
    (node.insertAndSplit L key rid sibling siblingKey).sibling.buffer = sibling.buffer := by
  unfold BTLeafNode.insertAndSplit
  rw [if_pos h]
  exact ⟨rfl, fun hc => RC.noConfusion hc, rfl, rfl⟩

/-- C9, at the full page 10, 20, 30, 40 with the page 2, 5, 9 as sibling. -/
theorem insertAndSplit_nonempty_sibling_witness :
    page3.getKeyCount small ≠ 0 ∧
    (page4.insertAndSplit small 25 rid0 page3 0).rc = RC.RC_INVALID_ATTRIBUTE ∧
    (page4.insertAndSplit small 25 rid0 page3 0).rc ≠ RC.ok ∧
    (page4.insertAndSplit small 25 rid0 page3 0).node.buffer = page4.buffer ∧
    (page4.insertAndSplit small 25 rid0 page3 0).sibling.buffer = page3.buffer :=
  ⟨by decide, insertAndSplit_nonempty_sibling small page4 page3 25 rid0 0 (by decide)⟩

/-- C10. With an empty sibling: when `getKeyCount() < NUM_PAIRS`, `insertAndSplit` returns the
error `RC_INVALID_FILE_FORMAT` and the buffer of the receiver is unchanged; when
`getKeyCount() >= NUM_PAIRS`, it returns 0, hence not that error. -/
theorem insertAndSplit_threshold (L : Layout) (node sibling : BTLeafNode) (key : Int)
    (rid : List Byte) (siblingKey : Int) (hs : sibling.getKeyCount L = 0) :
    (node.getKeyCount L < L.NUM_PAIRS →
      (node.insertAndSplit L key rid sibling siblingKey).rc = RC.RC_INVALID_FILE_FORMAT ∧
      (node.insertAndSplit L key rid sibling siblingKey).rc ≠ RC.ok ∧
      (node.insertAndSplit L key rid sibling siblingKey).node.buffer = node.buffer) ∧
    (L.NUM_PAIRS ≤ node.getKeyCount L →
      (node.insertAndSplit L key rid sibling siblingKey).rc ≠ RC.RC_INVALID_FILE_FORMAT ∧
      (node.insertAndSplit L key rid sibling siblingKey).rc = RC.ok) := by
  unfold BTLeafNode.insertAndSplit
  constructor
  · intro h
    rw [if_neg (by simp [hs]), if_pos h]
    exact ⟨rfl, fun hc => RC.noConfusion hc, rfl⟩
  · intro h
    have h2 : ¬ node.getKeyCount L < L.NUM_PAIRS := by omega
    rw [if_neg (by simp [hs]), if_neg h2]
    dsimp only
    split <;> exact ⟨fun hc => RC.noConfusion hc, rfl⟩

/-- C10, at the page 2, 5, 9 (below the threshold) and at the full page 10, 20, 30, 40. -/
theorem insertAndSplit_threshold_witness :
    ((page3.insertAndSplit small 7 rid0 emptyPage 0).rc = RC.RC_INVALID_FILE_FORMAT ∧
      (page3.insertAndSplit small 7 rid0 emptyPage 0).rc ≠ RC.ok ∧
      (page3.insertAndSplit small 7 rid0 emptyPage 0).node.buffer = page3.buffer) ∧
    ((page4.insertAndSplit small 25 rid0 emptyPage 0).rc ≠ RC.RC_INVALID_FILE_FORMAT ∧
      (page4.insertAndSplit small 25 rid0 emptyPage 0).rc = RC.ok) :=
  ⟨(insertAndSplit_threshold small page3 emptyPage 7 rid0 0 (by decide)).1 (by decide),
    (insertAndSplit_threshold small page4 emptyPage 25 rid0 0 (by decide)).2 (by decide)⟩

/-! ## Further facts about the split -/

theorem splitReady_of_ok {L : Layout} {node sibling : BTLeafNode} {key : Int}
    {rid : List Byte} {sk : Int} (hL : L.WellFormed) (hlen : node.buffer.length = L.PAGE_SIZE)
    (hslen : sibling.buffer.length = L.PAGE_SIZE)
    (h : (node.insertAndSplit L key rid sibling sk).rc = RC.ok) : SplitReady L node sibling := by
  unfold BTLeafNode.insertAndSplit at h
  by_cases h1 : sibling.getKeyCount L = 0
  · by_cases h2 : node.getKeyCount L < L.NUM_PAIRS
    · simp only [h1, h2, ne_eq, not_true_eq_false, if_true, if_false] at h
      cases h
    · exact ⟨hL, hlen, hslen, h1, by omega⟩
  · simp only [h1, ne_eq, not_false_eq_true, if_true] at h
    cases h

theorem keyAt_lt_of_sorted {L : Layout} {node : BTLeafNode}
    (hs : (node.keys L).Sorted (· < ·)) {i j : Nat} (hij : i < j)
    (hj : j < node.getKeyCount L) : node.keyAt L i < node.keyAt L j := by
  unfold BTLeafNode.keys List.Sorted at hs
  rw [List.pairwise_iff_getElem] at hs
  have := hs i j (by simp; omega) (by simp; omega) hij
  simpa using this

theorem split_node_keys {L : Layout} {node sibling : BTLeafNode}
    (h : SplitReady L node sibling) (key : Int) (rid : List Byte) (sk : Int) :
    (node.insertAndSplit L key rid sibling sk).node.keys L
      = (node.keys L).take ((node.getKeyCount L + 1) / 2) := by
  rw [keys_eq_map_entries, keys_eq_map_entries, split_node_entries h, List.map_take]

theorem split_sibling_keys {L : Layout} {node sibling : BTLeafNode}
    (h : SplitReady L node sibling) (key : Int) (rid : List Byte) (sk : Int) :
    (node.insertAndSplit L key rid sibling sk).sibling.keys L
      = (node.keys L).drop ((node.getKeyCount L + 1) / 2) := by
  rw [keys_eq_map_entries, keys_eq_map_entries, split_sibling_entries h, List.map_drop]

theorem siblingKey_eq_readInt (L : Layout) (node sibling : BTLeafNode)
    (key : Int) (rid : List Byte) (sk : Int)
    (h : (node.insertAndSplit L key rid sibling sk).rc = RC.ok) :
    (node.insertAndSplit L key rid sibling sk).siblingKey
      = readInt (node.insertAndSplit L key rid sibling sk).sibling.buffer := by
  unfold BTLeafNode.insertAndSplit at h ⊢
  by_cases h1 : sibling.getKeyCount L = 0
  · by_cases h2 : node.getKeyCount L < L.NUM_PAIRS
    · simp only [h1, h2, ne_eq, not_true_eq_false, if_true, if_false] at h
      cases h
    · simp only [h1, h2, ne_eq, not_true_eq_false, if_false]
      split <;> simp only []
  · simp only [h1, ne_eq, not_false_eq_true, if_true] at h
    cases h

theorem keyAt_zero (L : Layout) (node : BTLeafNode) : node.keyAt L 0 = readInt node.buffer := by
  simp [BTLeafNode.keyAt]

/-! ## The body of `insert` -/

theorem slotLayout_region {L : Layout} {S : Nat} (h : SlotLayout L S) :
    usub L.PAGE_SIZE L.SIZEOF_PAGEID = S * L.PAIR_SIZE := by
  obtain ⟨_, h2, h3⟩ := h
  rw [usub_eq (by omega) (by norm_num at h3 ⊢; omega)]
  omega

theorem slotLayout_pair_pos {L : Layout} {S : Nat} (h : SlotLayout L S) : 0 < L.PAIR_SIZE := by
  obtain ⟨h1, _⟩ := h
  simp [SIZEOF_INT] at h1
  omega

/-- The scan of `insert` stops at the first slot that is past the entry region, holds the key
zero, or holds a key that is at least `key`. -/
theorem insertScan_spec (L : Layout) (buffer : List Byte) (key : Int) (hp : 0 < L.PAIR_SIZE) :
    ∀ fuel k, usub L.PAGE_SIZE L.SIZEOF_PAGEID ≤ k * L.PAIR_SIZE + fuel →
      ∃ k0, insertScan L buffer key fuel (k * L.PAIR_SIZE) = k0 * L.PAIR_SIZE ∧ k ≤ k0 ∧
        (∀ j, k ≤ j → j < k0 → j * L.PAIR_SIZE < usub L.PAGE_SIZE L.SIZEOF_PAGEID ∧
          readInt (buffer.drop (j * L.PAIR_SIZE)) ≠ 0 ∧
          readInt (buffer.drop (j * L.PAIR_SIZE)) < key) ∧
        (k0 * L.PAIR_SIZE < usub L.PAGE_SIZE L.SIZEOF_PAGEID →
          readInt (buffer.drop (k0 * L.PAIR_SIZE)) = 0 ∨
          readInt (buffer.drop (k0 * L.PAIR_SIZE)) ≥ key) := by
  intro fuel
  induction fuel with
  | zero =>
    intro k h
    exact ⟨k, rfl, le_refl _, fun j h1 h2 => by omega, fun h2 => by omega⟩
  | succ fuel ih =>
    intro k h
    unfold insertScan
    by_cases h1 : k * L.PAIR_SIZE < usub L.PAGE_SIZE L.SIZEOF_PAGEID
    · by_cases h2 : readInt (buffer.drop (k * L.PAIR_SIZE)) = 0 ∨
          readInt (buffer.drop (k * L.PAIR_SIZE)) ≥ key
      · rw [if_pos h1, if_pos h2]
        exact ⟨k, rfl, le_refl _, fun j h3 h4 => by omega, fun _ => h2⟩
      · rw [if_pos h1, if_neg h2]
        have e : k * L.PAIR_SIZE + L.PAIR_SIZE = (k + 1) * L.PAIR_SIZE := by
          rw [Nat.succ_mul]
        rw [e]
        obtain ⟨k0, hk0, hle, hall, hstop⟩ := ih (k + 1) (by rw [← e]; omega)
        refine ⟨k0, hk0, by omega, ?_, hstop⟩
        intro j hj1 hj2
        rcases Nat.eq_or_lt_of_le hj1 with hjk | hjk
        · subst hjk
          push_neg at h2
          exact ⟨h1, h2.1, h2.2⟩
        · exact hall j (by omega) hj2
    · rw [if_neg h1]
      exact ⟨k, rfl, le_refl _, fun j h3 h4 => by omega, fun h2 => absurd h2 h1⟩

theorem byteAt_replicate_zero (n x : Nat) : byteAt (List.replicate n (0 : Byte)) x = 0 := by
  by_cases h : x < n
  · rw [byteAt_of_lt (by simp [h])]
    simp
  · exact byteAt_of_le (by simp; omega)

/-- The entry region after a call of `insert` that passes the guard, byte by byte, where `i`
is the offset found by the scan and `c` the key count before the call. -/
theorem insert_bytes {L : Layout} {S : Nat} (hL : SlotLayout L S) (node : BTLeafNode)
    (key : Int) (rid : List Byte) (hlen : node.buffer.length = L.PAGE_SIZE)
    (hg : ¬ node.getKeyCount L ≤ L.NUM_PAIRS + 1)
    (hi : insertScan L node.buffer key L.PAGE_SIZE 0 ≤ node.getKeyCount L * L.PAIR_SIZE)
    (hc : node.getKeyCount L * L.PAIR_SIZE ≤ S * L.PAIR_SIZE) {x : Nat}
    (hx : x < S * L.PAIR_SIZE) :
    byteAt (node.insert L key rid).2.buffer x =
      if x < insertScan L node.buffer key L.PAGE_SIZE 0 then byteAt node.buffer x
      else if x < insertScan L node.buffer key L.PAGE_SIZE 0 + SIZEOF_INT then
        byteAt (intBytes SIZEOF_INT key) (x - insertScan L node.buffer key L.PAGE_SIZE 0)
      else if x < insertScan L node.buffer key L.PAGE_SIZE 0 + L.PAIR_SIZE then
        byteAt rid (x - (insertScan L node.buffer key L.PAGE_SIZE 0 + SIZEOF_INT))
      else if x < node.getKeyCount L * L.PAIR_SIZE + L.PAIR_SIZE then
        byteAt node.buffer (x - L.PAIR_SIZE)
      else 0 := by
  obtain ⟨h1, h2, h3⟩ := hL
  have e : usub (node.getKeyCount L * L.PAIR_SIZE) (insertScan L node.buffer key L.PAGE_SIZE 0)
      = node.getKeyCount L * L.PAIR_SIZE - insertScan L node.buffer key L.PAGE_SIZE 0 :=
    usub_eq hi (by norm_num at h3 ⊢; omega)
  unfold BTLeafNode.insert
  rw [if_neg hg]
  simp only [e, byteAt_memcpy, length_memcpy, List.length_replicate, hlen, byteAt_drop,
    byteAt_replicate_zero]
  generalize insertScan L node.buffer key L.PAGE_SIZE 0 = i at hi ⊢
  generalize node.getKeyCount L * L.PAIR_SIZE = cp at hi hc ⊢
  simp only [SIZEOF_INT] at h1 ⊢
  split_ifs <;> first | rfl | omega | (congr 1; omega)

theorem readInt_intBytes {src : List Byte} {key : Int}
    (hb : ∀ j, j < SIZEOF_INT → byteAt src j = byteAt (intBytes SIZEOF_INT key) j)
    (h1 : -(2 ^ 31 : Int) ≤ key) (h2 : key < 2 ^ 31) : readInt src = key := by
  unfold readInt
  rw [readBytes_congr hb, readBytes_eq_self (length_intBytes _ _)]
  apply toSigned_intBytes
  · simp only [SIZEOF_INT]; norm_num; omega
  · simp only [SIZEOF_INT]; norm_num; omega

theorem mem_keys_of_lt {L : Layout} {node : BTLeafNode} {k : Nat}
    (h : k < node.getKeyCount L) : node.keyAt L k ∈ node.keys L :=
  List.mem_map.mpr ⟨k, List.mem_range.mpr h, rfl⟩

/-- A call of `insert` that returns 0 leaves the keys strictly increasing, when they were so
before, the new key is an `int` and is not stored in the node. -/
theorem insert_sorted {L : Layout} {S : Nat} (hL : SlotLayout L S) (node : BTLeafNode)
    (key : Int) (rid : List Byte) (hlen : node.buffer.length = L.PAGE_SIZE)
    (hsorted : (node.keys L).Sorted (· < ·)) (hkey : key ∉ node.keys L)
    (hr1 : -(2 ^ 31 : Int) ≤ key) (hr2 : key < 2 ^ 31)
    (hok : (node.insert L key rid).1 = RC.ok) :
    ((node.insert L key rid).2.keys L).Sorted (· < ·) := by
  have hreg := slotLayout_region hL
  have hpos := slotLayout_pair_pos hL
  have hP : L.PAIR_SIZE = SIZEOF_INT + L.SIZEOF_RECORDID := hL.1
  have hfuel : usub L.PAGE_SIZE L.SIZEOF_PAGEID ≤ L.PAGE_SIZE := by
    rw [hreg]; have := hL.2.1; omega
  -- the guard is passed
  have hg : ¬ node.getKeyCount L ≤ L.NUM_PAIRS + 1 := by
    intro hle
    rw [insert_of_le key rid hle] at hok
    cases hok
  -- the key count before the call
  have hold := isCount_getKeyCount L node hpos hfuel
  rw [IsCount, hreg] at hold
  have hcS : node.getKeyCount L ≤ S := by
    by_contra hc
    exact Nat.lt_irrefl _ (hold.1 S (by omega)).1
  -- the scan
  obtain ⟨k0, hk0, -, hbelow, hstop⟩ :=
    insertScan_spec L node.buffer key hpos L.PAGE_SIZE 0 (by omega)
  rw [Nat.zero_mul] at hk0
  rw [hreg] at hbelow hstop
  have hk0c : k0 ≤ node.getKeyCount L := by
    by_contra hc
    have h1 := hbelow (node.getKeyCount L) (Nat.zero_le _) (by omega)
    exact h1.2.1 (hold.2 h1.1)
  have hiC : insertScan L node.buffer key L.PAGE_SIZE 0 ≤ node.getKeyCount L * L.PAIR_SIZE := by
    rw [hk0]; exact Nat.mul_le_mul_right _ hk0c
  have hcp : node.getKeyCount L * L.PAIR_SIZE ≤ S * L.PAIR_SIZE :=
    Nat.mul_le_mul_right _ hcS
  have hbytes := fun x (hx : x < S * L.PAIR_SIZE) =>
    insert_bytes hL node key rid hlen hg hiC hcp hx
  rw [hk0] at hbytes
  simp only [SIZEOF_INT] at hP
  -- the keys after the call, slot by slot
  have K1 : ∀ k, k < k0 → (node.insert L key rid).2.keyAt L k = node.keyAt L k := by
    intro k hk
    apply keyAt_eq_of_bytes
    intro j hj
    simp only [SIZEOF_INT] at hj
    have h1 := slot_end_le L.PAIR_SIZE hk
    have h2 := Nat.mul_le_mul_right L.PAIR_SIZE (Nat.le_trans hk0c hcS)
    rw [hbytes _ (by omega), if_pos (by omega)]
  have K2 : k0 < S → (node.insert L key rid).2.keyAt L k0 = key := by
    intro hk
    unfold BTLeafNode.keyAt
    apply readInt_intBytes _ hr1 hr2
    intro j hj
    have h1 := slot_end_le L.PAIR_SIZE hk
    rw [byteAt_drop]
    simp only [SIZEOF_INT] at hj
    rw [hbytes _ (by omega), if_neg (by omega), if_pos (by simp only [SIZEOF_INT]; omega)]
    congr 1
    omega
  have K3 : ∀ k, k0 < k → k ≤ node.getKeyCount L → k < S →
      (node.insert L key rid).2.keyAt L k = node.keyAt L (k - 1) := by
    intro k hk hkc hkS
    apply keyAt_eq_of_bytes
    intro j hj
    simp only [SIZEOF_INT] at hj
    have h1 := slot_end_le L.PAIR_SIZE hkS
    have h2 := slot_end_le L.PAIR_SIZE hk
    have h3 := Nat.mul_le_mul_right L.PAIR_SIZE hkc
    have h4 : (k - 1) * L.PAIR_SIZE + L.PAIR_SIZE = k * L.PAIR_SIZE := by
      rw [← Nat.succ_mul]; congr 1; omega
    rw [hbytes _ (by omega), if_neg (by omega), if_neg (by simp only [SIZEOF_INT]; omega),
      if_neg (by omega), if_pos (by omega)]
    congr 1
    omega
  have K4 : ∀ k, node.getKeyCount L < k → k < S →
      (node.insert L key rid).2.keyAt L k = 0 := by
    intro k hk hkS
    unfold BTLeafNode.keyAt
    apply readInt_zero
    intro j hj
    simp only [SIZEOF_INT] at hj
    have h1 := slot_end_le L.PAIR_SIZE hkS
    have h2 := slot_end_le L.PAIR_SIZE hk
    have h3 := Nat.mul_le_mul_right L.PAIR_SIZE hk0c
    rw [byteAt_drop, hbytes _ (by omega), if_neg (by omega),
      if_neg (by simp only [SIZEOF_INT]; omega), if_neg (by omega), if_neg (by omega)]
  -- the key count after the call
  have hnew := isCount_getKeyCount L (node.insert L key rid).2 hpos hfuel
  rw [IsCount, hreg] at hnew
  have hslot : ∀ k, k < (node.insert L key rid).2.getKeyCount L →
      k < S ∧ k ≤ node.getKeyCount L := by
    intro k hk
    have hkS : k < S := Nat.lt_of_mul_lt_mul_right (hnew.1 k hk).1
    refine ⟨hkS, ?_⟩
    by_contra hc
    exact (hnew.1 k hk).2 (K4 k (by omega) hkS)
  -- facts about the keys before the call
  have hlt : ∀ j, j < k0 → node.keyAt L j < key := fun j hj => (hbelow j (Nat.zero_le _) hj).2.2
  have hgt : ∀ j, k0 ≤ j → j < node.getKeyCount L → key < node.keyAt L j := by
    intro j hj hjc
    have hk0S : k0 * L.PAIR_SIZE < S * L.PAIR_SIZE :=
      Nat.mul_lt_mul_of_lt_of_le (by omega) (Nat.le_refl _) hpos
    have h0 : node.keyAt L k0 ≠ 0 := (hold.1 k0 (by omega)).2
    have hne : node.keyAt L k0 ≠ key := fun he => hkey (he ▸ mem_keys_of_lt (by omega))
    have hge : node.keyAt L k0 ≥ key := by
      rcases hstop hk0S with hz | hz
      · exact absurd hz h0
      · exact hz
    rcases Nat.eq_or_lt_of_le hj with hjk | hjk
    · rw [← hjk]; omega
    · have := keyAt_lt_of_sorted hsorted hjk hjc
      omega
  -- strictly increasing
  unfold BTLeafNode.keys List.Sorted
  rw [List.pairwise_iff_getElem]
  intro a b ha hb hab
  simp only [List.length_map, List.length_range] at ha hb
  simp only [List.getElem_map, List.getElem_range]
  obtain ⟨haS, hac⟩ := hslot a ha
  obtain ⟨hbS, hbc⟩ := hslot b hb
  rcases Nat.lt_trichotomy b k0 with hbk | hbk | hbk
  · rw [K1 a (by omega), K1 b hbk]
    exact keyAt_lt_of_sorted hsorted hab (by omega)
  · rw [K1 a (by omega), hbk, K2 (by omega)]
    exact hlt a (by omega)
  · rw [K3 b hbk hbc hbS]
    rcases Nat.lt_trichotomy a k0 with hak | hak | hak
    · rw [K1 a hak]
      exact keyAt_lt_of_sorted hsorted (by omega) (by omega)
    · rw [hak, K2 (by omega)]
      exact hgt (b - 1) (by omega) (by omega)
    · rw [K3 a hak hac haS]
      exact keyAt_lt_of_sorted hsorted (by omega) (by omega)

/-! ## The claims on the split outputs, the page store and the internal node -/

/-- C11. When `insertAndSplit` returns 0, the output `siblingKey` is the key of entry 0 of the
sibling as the sibling stands when the call returns. -/
theorem insertAndSplit_siblingKey (L : Layout) (node sibling : BTLeafNode) (key : Int)
    (rid : List Byte) (siblingKey : Int)
    (h : (node.insertAndSplit L key rid sibling siblingKey).rc = RC.ok) :
    (node.insertAndSplit L key rid sibling siblingKey).siblingKey
      = (node.insertAndSplit L key rid sibling siblingKey).sibling.keyAt L 0 := by
  rw [keyAt_zero]
  exact siblingKey_eq_readInt L node sibling key rid siblingKey h

/-- C11, at the full page 10, 20, 30, 40 with the new key 25: `siblingKey` is 30. -/
theorem insertAndSplit_siblingKey_witness :
    (page4.insertAndSplit small 25 rid0 emptyPage 0).sibling.keyAt small 0 = 30 ∧
    (page4.insertAndSplit small 25 rid0 emptyPage 0).siblingKey
      = (page4.insertAndSplit small 25 rid0 emptyPage 0).sibling.keyAt small 0 :=
  ⟨by decide, insertAndSplit_siblingKey small page4 emptyPage 25 rid0 0 (by decide)⟩

/-- C12 (counterexample). The full page 10, 20, 30, 40 whose trailer holds the page id -1 is
split with success, and the sibling's next-node pointer is 0 afterwards, not -1:
`setNextNodePtr` rejects a negative page id. -/
theorem insertAndSplit_next_counterexample :
    page4NegNext.getNextNodePtr small = -1 ∧
    (page4NegNext.insertAndSplit small 25 rid0 emptyPage 0).rc = RC.ok ∧
    (page4NegNext.insertAndSplit small 25 rid0 emptyPage 0).sibling.getNextNodePtr small = 0 ∧
    (page4NegNext.insertAndSplit small 25 rid0 emptyPage 0).sibling.getNextNodePtr small
      ≠ page4NegNext.getNextNodePtr small := by
  decide

/-- C12 (amended). For well-formed constants and page-sized buffers, when the trailer of the
receiver holds a non-negative page id and `insertAndSplit` returns 0, the sibling's next-node
pointer afterwards is the receiver's next-node pointer from before the call, and the
receiver's own next-node pointer is unchanged. -/
theorem insertAndSplit_next (L : Layout) (node sibling : BTLeafNode) (key : Int)
    (rid : List Byte) (siblingKey : Int) (hL : L.WellFormed)
    (hlen : node.buffer.length = L.PAGE_SIZE) (hslen : sibling.buffer.length = L.PAGE_SIZE)
    (hnext : 0 ≤ node.getNextNodePtr L)
    (h : (node.insertAndSplit L key rid sibling siblingKey).rc = RC.ok) :
    (node.insertAndSplit L key rid sibling siblingKey).sibling.getNextNodePtr L
      = node.getNextNodePtr L ∧
    (node.insertAndSplit L key rid sibling siblingKey).node.getNextNodePtr L
      = node.getNextNodePtr L :=
  have hr := splitReady_of_ok hL hlen hslen h
  ⟨split_sibling_next hr key rid siblingKey hnext, split_node_next hr key rid siblingKey⟩

/-- C12 (amended), at the full page 10, 20, 30, 40 whose trailer holds the page id 9. -/
theorem insertAndSplit_next_witness :
    page4Next.getNextNodePtr small = 9 ∧
    (page4Next.insertAndSplit small 25 rid0 emptyPage 0).sibling.getNextNodePtr small
      = page4Next.getNextNodePtr small ∧
    (page4Next.insertAndSplit small 25 rid0 emptyPage 0).node.getNextNodePtr small
      = page4Next.getNextNodePtr small :=
  ⟨by decide, insertAndSplit_next small page4Next emptyPage 25 rid0 0 (by decide) (by decide)
    (by decide) (by decide) (by decide)⟩

/-- C13. For a page-sized receiver whose keys are strictly increasing. (1) On a page of `S`
pairs followed by the trailer, whatever `NUM_PAIRS` is: when `insert` of a key that is an `int`
and is not stored in the node returns 0, the keys of the receiver are strictly increasing
afterwards (when all `S` slots are in use, part d of `insert` copies past the end of the
array, which the embedding cuts off at the array). (2) For well-formed constants and a
page-sized sibling: when `insertAndSplit` returns 0, the keys of the receiver and the keys of
the sibling are each strictly increasing. -/
theorem sorted_invariant (L : Layout) (node sibling : BTLeafNode) (key : Int)
    (rid : List Byte) (siblingKey : Int) (hlen : node.buffer.length = L.PAGE_SIZE)
    (hsorted : (node.keys L).Sorted (· < ·)) :
    (∀ S, SlotLayout L S → -(2 ^ 31 : Int) ≤ key → key < 2 ^ 31 → key ∉ node.keys L →
      (node.insert L key rid).1 = RC.ok →
      ((node.insert L key rid).2.keys L).Sorted (· < ·)) ∧
    (L.WellFormed → sibling.buffer.length = L.PAGE_SIZE →
      (node.insertAndSplit L key rid sibling siblingKey).rc = RC.ok →
      ((node.insertAndSplit L key rid sibling siblingKey).node.keys L).Sorted (· < ·) ∧
      ((node.insertAndSplit L key rid sibling siblingKey).sibling.keys L).Sorted (· < ·)) := by
  constructor
  · intro S hS hr1 hr2 hkey hok
    exact insert_sorted hS node key rid hlen hsorted hkey hr1 hr2 hok
  · intro hL hslen h
    have hr := splitReady_of_ok hL hlen hslen h
    rw [split_node_keys hr, split_sibling_keys hr]
    exact ⟨List.Pairwise.take hsorted, List.Pairwise.drop hsorted⟩

/-- C13, at two inputs. On the 4-slot layout whose `NUM_PAIRS` is 1, `insert(7, rid)` on the
page 2, 5, 9 returns 0 and gives the keys 2, 5, 7, 9. On the capacity-4 layout, the split of
the full page 10, 20, 30, 40 with the new key 25 returns 0. -/
theorem sorted_invariant_witness :
    ((page3.insert lowThreshold 7 rid0).1 = RC.ok ∧
      (page3.insert lowThreshold 7 rid0).2.keys lowThreshold = [2, 5, 7, 9] ∧
      ((page3.insert lowThreshold 7 rid0).2.keys lowThreshold).Sorted (· < ·)) ∧
    ((page4.insertAndSplit small 25 rid0 emptyPage 0).rc = RC.ok ∧
      ((page4.insertAndSplit small 25 rid0 emptyPage 0).node.keys small).Sorted (· < ·) ∧
      ((page4.insertAndSplit small 25 rid0 emptyPage 0).sibling.keys small).Sorted (· < ·)) :=
  ⟨⟨by decide, by decide,
      (sorted_invariant lowThreshold page3 emptyPage 7 rid0 0 (by decide) (by decide)).1 4
        (by decide) (by decide) (by decide) (by decide) (by decide)⟩,
    ⟨by decide,
      (sorted_invariant small page4 emptyPage 25 rid0 0 (by decide) (by decide)).2
        (by decide) (by decide) (by decide)⟩⟩

theorem read_write_buffer (L : Layout) (node fresh : BTLeafNode) (pid : Int) (pf : PageFile)
    (hlen : node.buffer.length = L.PAGE_SIZE) (hf : fresh.buffer.length = L.PAGE_SIZE)
    (hw : (node.write L pid pf).1 = RC.ok) :
    fresh.read L pid (node.write L pid pf).2 = (RC.ok, node) := by
  unfold BTLeafNode.write PageFile.write at hw ⊢
  by_cases hp : pid < 0
  · rw [if_pos hp] at hw
    cases hw
  · rw [if_neg hp]
    unfold BTLeafNode.read PageFile.read
    simp only [if_true]
    congr 1
    cases node with
    | mk buf =>
      congr 1
      apply ext_byteAt (by simp [hf, hlen])
      intro i hi
      simp only [length_memcpy, hf] at hi
      rw [byteAt_memcpy, if_pos ⟨by omega, by omega, by omega⟩, Nat.sub_zero,
        byteAt_readBytes _ hi]

/-- C14. With the page store modelled as a map from page ids to page-sized buffers: when
`write(pid, pf)` of a page-sized node returns 0, `read(pid, pf)` into a fresh page-sized node
returns 0 and the fresh node has the same entry sequence, the same key count and the same
next-node pointer as the node written. -/
theorem write_read_roundtrip (L : Layout) (node fresh : BTLeafNode) (pid : Int)
    (pf : PageFile) (hlen : node.buffer.length = L.PAGE_SIZE)
    (hf : fresh.buffer.length = L.PAGE_SIZE) (hw : (node.write L pid pf).1 = RC.ok) :
    (fresh.read L pid (node.write L pid pf).2).1 = RC.ok ∧
    (fresh.read L pid (node.write L pid pf).2).2.entries L = node.entries L ∧
    (fresh.read L pid (node.write L pid pf).2).2.getKeyCount L = node.getKeyCount L ∧
    (fresh.read L pid (node.write L pid pf).2).2.getNextNodePtr L = node.getNextNodePtr L := by
  rw [read_write_buffer L node fresh pid pf hlen hf hw]
  exact ⟨rfl, rfl, rfl, rfl⟩

/-- C14, writing the page 10, 20, 30, 40 with next-node pointer 9 under page id 3 and reading
it into a zeroed node. -/
theorem write_read_roundtrip_witness :
    (page4Next.write small 3 emptyStore).1 = RC.ok ∧
    (emptyPage.read small 3 (page4Next.write small 3 emptyStore).2).1 = RC.ok ∧
    (emptyPage.read small 3 (page4Next.write small 3 emptyStore).2).2.entries small
      = page4Next.entries small ∧
    (emptyPage.read small 3 (page4Next.write small 3 emptyStore).2).2.getKeyCount small
      = page4Next.getKeyCount small ∧
    (emptyPage.read small 3 (page4Next.write small 3 emptyStore).2).2.getNextNodePtr small
      = page4Next.getNextNodePtr small :=
  ⟨by decide, write_read_roundtrip small page4Next emptyPage 3 emptyStore (by decide)
    (by decide) (by decide)⟩

/-- C15. For well-formed constants, a page-sized node and a page id `pid >= 0` of the `PageId`
range, `setNextNodePtr(pid)` returns 0, `getNextNodePtr()` returns `pid` afterwards, the entry
sequence and the key count are unchanged, and no byte before the trailer is changed. -/
theorem setNextNodePtr_nonneg (L : Layout) (node : BTLeafNode) (pid : Int)
    (hL : L.WellFormed) (hlen : node.buffer.length = L.PAGE_SIZE) (h0 : 0 ≤ pid)
    (h1 : 2 * pid < 2 ^ (8 * L.SIZEOF_PAGEID)) :
    (node.setNextNodePtr L pid).1 = RC.ok ∧
    (node.setNextNodePtr L pid).2.getNextNodePtr L = pid ∧
    (node.setNextNodePtr L pid).2.entries L = node.entries L ∧
    (node.setNextNodePtr L pid).2.getKeyCount L = node.getKeyCount L ∧
    (∀ i, i < L.PAGE_SIZE - L.SIZEOF_PAGEID →
      byteAt (node.setNextNodePtr L pid).2.buffer i = byteAt node.buffer i) := by
  have hreg : L.PAGE_SIZE - L.SIZEOF_PAGEID = L.NUM_PAIRS * L.PAIR_SIZE := by
    have := hL.2.2.1
    omega
  have hb : ∀ i, i < L.NUM_PAIRS * L.PAIR_SIZE →
      byteAt (node.setNextNodePtr L pid).2.buffer i = byteAt node.buffer i :=
    fun i hi => byteAt_setNextNodePtr node pid (by omega)
  refine ⟨?_, ?_, entries_congr hL hb, getKeyCount_congr hL hb, ?_⟩
  · unfold BTLeafNode.setNextNodePtr
    rw [if_neg (by omega)]
  · exact getNextNodePtr_setNextNodePtr L node pid hlen (by have := hL.2.2.1; omega) h0 h1
  · intro i hi
    exact byteAt_setNextNodePtr node pid hi

/-- C15, setting the next-node pointer of the page 2, 5, 9 to 300. -/
theorem setNextNodePtr_nonneg_witness :
    (page3.setNextNodePtr small 300).1 = RC.ok ∧
    (page3.setNextNodePtr small 300).2.getNextNodePtr small = 300 ∧
    (page3.setNextNodePtr small 300).2.entries small = page3.entries small ∧
    (page3.setNextNodePtr small 300).2.getKeyCount small = page3.getKeyCount small ∧
    (∀ i, i < small.PAGE_SIZE - small.SIZEOF_PAGEID →
      byteAt (page3.setNextNodePtr small 300).2.buffer i = byteAt page3.buffer i) :=
  setNextNodePtr_nonneg small page3 300 (by decide) (by decide) (by decide) (by decide)

/-- C16. For `pid < 0`, `setNextNodePtr(pid)` returns `RC_INVALID_PID` and the buffer of the
node, the stored next-node pointer included, is unchanged. -/
theorem setNextNodePtr_negative (L : Layout) (node : BTLeafNode) (pid : Int) (h : pid < 0) :
    (node.setNextNodePtr L pid).1 = RC.RC_INVALID_PID ∧
    (node.setNextNodePtr L pid).2.buffer = node.buffer ∧
    (node.setNextNodePtr L pid).2.getNextNodePtr L = node.getNextNodePtr L := by
  unfold BTLeafNode.setNextNodePtr
  rw [if_pos h]
  exact ⟨rfl, rfl, rfl⟩

/-- C16, at the page 10, 20, 30, 40 with next-node pointer 9 and the page id -1. -/
theorem setNextNodePtr_negative_witness :
    (page4Next.setNextNodePtr small (-1)).1 = RC.RC_INVALID_PID ∧
    (page4Next.setNextNodePtr small (-1)).2.buffer = page4Next.buffer ∧
    (page4Next.setNextNodePtr small (-1)).2.getNextNodePtr small
      = page4Next.getNextNodePtr small :=
  setNextNodePtr_negative small page4Next (-1) (by decide)

/-- C17 (code defect). `BTNonLeafNode::initializeRoot`, `getKeyCount` and `locateChildPtr` are
stubs that return 0: after `initializeRoot(1, 10, 2)` on an empty internal node the key count
is 0, not 1, and `locateChildPtr` leaves its output parameter as it was (77 here) for the
search keys 5 and 10, instead of giving the children 1 and 2. -/
theorem initializeRoot_stub :
    (emptyNonLeaf.initializeRoot 1 10 2).1 = RC.ok ∧
    (emptyNonLeaf.initializeRoot 1 10 2).2.getKeyCount = 0 ∧
    (emptyNonLeaf.initializeRoot 1 10 2).2.getKeyCount ≠ 1 ∧
    (emptyNonLeaf.initializeRoot 1 10 2).2.locateChildPtr 5 77 = (RC.ok, 77) ∧
    (emptyNonLeaf.initializeRoot 1 10 2).2.locateChildPtr 10 77 = (RC.ok, 77) := by
  decide

/-- C18 (code defect). `BTNonLeafNode::insertAndSplit` is a stub that returns 0: it leaves the
receiver, the sibling and the output parameter `midKey` (77 here) as they were, so no
separator is promoted or moved. -/
theorem nonLeaf_insertAndSplit_stub :
    (emptyNonLeaf.insertAndSplit 25 7 emptyNonLeaf 77).rc = RC.ok ∧
    (emptyNonLeaf.insertAndSplit 25 7 emptyNonLeaf 77).midKey = 77 ∧
    (emptyNonLeaf.insertAndSplit 25 7 emptyNonLeaf 77).node = emptyNonLeaf ∧
    (emptyNonLeaf.insertAndSplit 25 7 emptyNonLeaf 77).sibling = emptyNonLeaf := by
  decide

/-- C19. For well-formed constants, page-sized buffers and a receiver whose keys are strictly
increasing: when `insertAndSplit` returns 0, every key stored in the receiver is less than
the returned `siblingKey` and every key stored in the sibling is at least `siblingKey`. -/
theorem insertAndSplit_separator (L : Layout) (node sibling : BTLeafNode) (key : Int)
    (rid : List Byte) (siblingKey : Int) (hL : L.WellFormed)
    (hlen : node.buffer.length = L.PAGE_SIZE) (hslen : sibling.buffer.length = L.PAGE_SIZE)
    (hsorted : (node.keys L).Sorted (· < ·))
    (h : (node.insertAndSplit L key rid sibling siblingKey).rc = RC.ok) :
    (∀ k ∈ (node.insertAndSplit L key rid sibling siblingKey).node.keys L,
      k < (node.insertAndSplit L key rid sibling siblingKey).siblingKey) ∧
    (∀ k ∈ (node.insertAndSplit L key rid sibling siblingKey).sibling.keys L,
      (node.insertAndSplit L key rid sibling siblingKey).siblingKey ≤ k) := by
  have hr := splitReady_of_ok hL hlen hslen h
  have hc : node.getKeyCount L = L.NUM_PAIRS := Nat.le_antisymm (getKeyCount_le hL node) hr.2.2.2.2
  have hN := hL.2.2.2.1
  have hp : L.PAIR_SIZE = SIZEOF_INT + L.SIZEOF_RECORDID := hL.1
  have hsk : (node.insertAndSplit L key rid sibling siblingKey).siblingKey
      = node.keyAt L ((L.NUM_PAIRS + 1) / 2) := by
    rw [siblingKey_eq_readInt L node sibling key rid siblingKey h, ← keyAt_zero L]
    have e : (node.insertAndSplit L key rid sibling siblingKey).sibling.keyAt L 0
        = node.keyAt L ((L.NUM_PAIRS + 1) / 2 + 0) :=
      keyAt_eq_of_bytes (fun j hj =>
        split_sibling_bytes hr key rid siblingKey (by omega) (by omega))
    rw [e, Nat.add_zero]
  rw [hsk]
  constructor
  · intro k hk
    unfold BTLeafNode.keys at hk
    rw [split_node_count hr] at hk
    obtain ⟨i, hi, rfl⟩ := List.mem_map.mp hk
    have hi := List.mem_range.mp hi
    have e : (node.insertAndSplit L key rid sibling siblingKey).node.keyAt L i
        = node.keyAt L i :=
      keyAt_eq_of_bytes (fun j hj => split_node_bytes hr key rid siblingKey hi (by omega))
    rw [e]
    exact keyAt_lt_of_sorted hsorted hi (by omega)
  · intro k hk
    unfold BTLeafNode.keys at hk
    rw [split_sibling_count hr] at hk
    obtain ⟨i, hi, rfl⟩ := List.mem_map.mp hk
    have hi := List.mem_range.mp hi
    have e : (node.insertAndSplit L key rid sibling siblingKey).sibling.keyAt L i
        = node.keyAt L ((L.NUM_PAIRS + 1) / 2 + i) :=
      keyAt_eq_of_bytes (fun j hj => split_sibling_bytes hr key rid siblingKey hi (by omega))
    rw [e]
    rcases Nat.eq_zero_or_pos i with h0 | h0
    · rw [h0, Nat.add_zero]
      exact le_refl _
    · exact le_of_lt (keyAt_lt_of_sorted hsorted (by omega) (by omega))

/-- C19, at the full page 10, 20, 30, 40 with the new key 25 (`siblingKey` is 30). -/
theorem insertAndSplit_separator_witness :
    (page4.insertAndSplit small 25 rid0 emptyPage 0).siblingKey = 30 ∧
    (∀ k ∈ (page4.insertAndSplit small 25 rid0 emptyPage 0).node.keys small,
      k < (page4.insertAndSplit small 25 rid0 emptyPage 0).siblingKey) ∧
    (∀ k ∈ (page4.insertAndSplit small 25 rid0 emptyPage 0).sibling.keys small,
      (page4.insertAndSplit small 25 rid0 emptyPage 0).siblingKey ≤ k) :=
  ⟨by decide, insertAndSplit_separator small page4 emptyPage 25 rid0 0 (by decide) (by decide)
    (by decide) (by decide) (by decide)⟩

/-- C20 (code defect). The entry region of the full page 10, 20, 30, 40 has no byte at or
after `getKeyCount() * PAIR_SIZE = 48`, so the page has a clean tail. After the split with the
new key 25 the receiver holds 2 entries, and the byte at offset 44 of its entry region is 7,
not 0: the `memset` of the receiver is `sizeof(PageId)` bytes short, so the last 4 bytes of
the last entry moved to the sibling stay in the receiver. -/
theorem insertAndSplit_dirty_tail :
    (∀ i, i < small.PAGE_SIZE - small.SIZEOF_PAGEID →
      page4.getKeyCount small * small.PAIR_SIZE ≤ i → byteAt page4.buffer i = 0) ∧
    (page4.insertAndSplit small 25 rid0 emptyPage 0).rc = RC.ok ∧
    (page4.insertAndSplit small 25 rid0 emptyPage 0).node.getKeyCount small = 2 ∧
    2 * small.PAIR_SIZE ≤ 44 ∧ 44 < small.PAGE_SIZE - small.SIZEOF_PAGEID ∧
    byteAt (page4.insertAndSplit small 25 rid0 emptyPage 0).node.buffer 44 = 7 := by
  decide

end BTreeNode
